import Mathlib

/-
Verification of the mpatch patching library (VariantSync/mpatch).

The Rust sources are embedded shallowly:
  * Rust strings are modeled as lists of characters (Str);
  * usize is modeled as Nat; where a subtraction can underflow (a debug-build
    panic in Rust) a separate checked variant with an Option result is provided;
  * file-system effects (existence checks, writes) are passed in explicitly;
  * Rust panics are modeled as distinguished failure values.

Sections follow the source files: io.rs, diffs.rs, patch/matching.rs,
patch.rs + patch/alignment.rs + patch/filtering.rs + patch/application.rs.
-/

/-- Strings are modeled as lists of characters. -/
abbrev Str := List Char

/-- Converts a Lean string literal to the character-list representation. -/
def str (s : String) : Str := s.data

/-- Splits a character list at every character satisfying p, keeping empty
segments; models Rust str::split with a char predicate. -/
def splitOnP (p : Char → Bool) : Str → List Str
  | [] => [[]]
  | c :: cs =>
    if p c then [] :: splitOnP p cs
    else
      match splitOnP p cs with
      | [] => [[c]]
      | w :: ws => (c :: w) :: ws

/-- Strips one trailing carriage return, as Rust str::lines does for each
newline-terminated line. -/
def stripCR (l : Str) : Str := if l.getLast? = some '\r' then l.dropLast else l

/-- Helper for rustLines: the final segment is an unterminated line (dropped if
empty, kept verbatim otherwise); all earlier segments were newline-terminated
and get a trailing carriage return stripped. -/
def rustLinesAux : List Str → List Str
  | [] => []
  | [l] => if l = [] then [] else [l]
  | l :: ls => stripCR l :: rustLinesAux ls

/-- Models Rust str::lines(): split at LF separators, treating a CRLF pair as a
single separator, with an optional final line terminator. -/
def rustLines (cs : Str) : List Str := rustLinesAux (splitOnP (fun c => c = '\n') cs)

/-- Joins segments with a separator; joinWith [a] [x, y, z] = x ++ a :: y ++ a :: z. -/
def joinWith (sep : Str) : List Str → Str
  | [] => []
  | [l] => l
  | l :: ls => l ++ sep ++ joinWith sep ls

/- ------------------------------------------------------------------ io.rs -/

/-- io.rs: FileArtifact owns a path and the file content split into lines. -/
structure FileArtifact where
  path : Str
  lines : List Str
deriving DecidableEq

/-- io.rs FileArtifact::parse_content: fs::read_to_string followed by
iterating content.lines(), collecting each line. -/
def FileArtifact.parse_content (path : Str) (file_content : Str) : FileArtifact :=
  { path := path, lines := rustLines file_content }

/-- io.rs Display for FileArtifact: the first line is printed bare, every
further line is preceded by a newline; no trailing newline is emitted.
FileArtifact::write persists exactly this rendering. -/
def FileArtifact.display (a : FileArtifact) : Str := joinWith ['\n'] a.lines

/- Lemmas about splitting and joining. -/

theorem splitOnP_ne_nil (p : Char → Bool) (cs : Str) : splitOnP p cs ≠ [] := by
  cases cs with
  | nil => simp [splitOnP]
  | cons c cs =>
    simp only [splitOnP]
    split
    · simp
    · cases h : splitOnP p cs <;> simp

theorem joinWith_splitOnP (cs : Str) :
    joinWith ['\n'] (splitOnP (fun c => c = '\n') cs) = cs := by
  induction cs with
  | nil => rfl
  | cons c cs ih =>
    simp only [splitOnP]
    split
    · rename_i hc
      have hc' : c = '\n' := by simpa using hc
      subst hc'
      have hne := splitOnP_ne_nil (fun c => c = '\n') cs
      cases h : splitOnP (fun c => c = '\n') cs with
      | nil => exact absurd h hne
      | cons w ws =>
        rw [h] at ih
        simpa [joinWith] using ih
    · have hne := splitOnP_ne_nil (fun c => c = '\n') cs
      cases h : splitOnP (fun c => c = '\n') cs with
      | nil => exact absurd h hne
      | cons w ws =>
        rw [h] at ih
        cases ws with
        | nil => simpa [joinWith] using ih
        | cons w' ws' => simpa [joinWith] using ih

theorem splitOnP_append_sep (p : Char → Bool) (c : Char) (hc : p c = true) (xs : Str) :
    splitOnP p (xs ++ [c]) = splitOnP p xs ++ [[]] := by
  induction xs with
  | nil => simp [splitOnP, hc]
  | cons x xs ih =>
    show splitOnP p (x :: (xs ++ [c])) = splitOnP p (x :: xs) ++ [[]]
    simp only [splitOnP]
    by_cases hx : p x
    · simp [hx, ih]
    · simp only [hx, if_false, Bool.false_eq_true]
      rw [ih]
      have hne := splitOnP_ne_nil p xs
      cases h : splitOnP p xs with
      | nil => exact absurd h hne
      | cons w ws => simp

theorem mem_of_mem_splitOnP (p : Char → Bool) {c : Char} {part : Str} {cs : Str}
    (hpart : part ∈ splitOnP p cs) (hc : c ∈ part) : c ∈ cs := by
  induction cs generalizing part with
  | nil =>
    simp [splitOnP] at hpart
    subst hpart
    simp at hc
  | cons x cs ih =>
    simp only [splitOnP] at hpart
    split at hpart
    · rcases List.mem_cons.1 hpart with h | h
      · subst h; simp at hc
      · exact List.mem_cons_of_mem x (ih h hc)
    · rename_i hx
      cases hsp : splitOnP p cs with
      | nil => exact absurd hsp (splitOnP_ne_nil p cs)
      | cons w ws =>
        rw [hsp] at hpart
        rcases List.mem_cons.1 hpart with h | h
        · subst h
          rcases List.mem_cons.1 hc with h' | h'
          · subst h'; exact List.mem_cons_self c cs
          · exact List.mem_cons_of_mem x (ih (by rw [hsp]; exact List.mem_cons_self w ws) h')
        · exact List.mem_cons_of_mem x (ih (by rw [hsp]; exact List.mem_cons_of_mem w h) hc)

theorem stripCR_of_not_mem {l : Str} (h : '\r' ∉ l) : stripCR l = l := by
  unfold stripCR
  cases hl : l.getLast? with
  | none => simp
  | some c =>
    have hne : l ≠ [] := by
      intro he; rw [he] at hl; simp at hl
    have hcl : c = l.getLast hne := by
      have := List.getLast?_eq_getLast l hne
      rw [hl] at this
      exact Option.some_inj.1 this
    have hmem : c ∈ l := hcl ▸ List.getLast_mem hne
    by_cases hc : c = '\r'
    · subst hc; exact absurd hmem h
    · simp [hl, hc]

theorem rustLinesAux_append_empty (ps : List Str) (h : ∀ l ∈ ps, stripCR l = l) :
    rustLinesAux (ps ++ [[]]) = ps := by
  induction ps with
  | nil => simp [rustLinesAux]
  | cons p ps ih =>
    cases ps with
    | nil =>
      show rustLinesAux [p, []] = [p]
      have e1 : rustLinesAux [p, []] = stripCR p :: rustLinesAux [[]] := rfl
      have e2 : rustLinesAux ([[]] : List Str) = [] := rfl
      rw [e1, e2, h p (by simp)]
    | cons q qs =>
      show rustLinesAux (p :: ((q :: qs) ++ [[]])) = p :: q :: qs
      have : rustLinesAux (p :: ((q :: qs) ++ [[]])) =
          stripCR p :: rustLinesAux ((q :: qs) ++ [[]]) := by
        simp [rustLinesAux]
      rw [this, h p (by simp), ih (fun l hl => h l (List.mem_cons_of_mem p hl))]

/-- Claim C6 (counterexample): the UTF-8 content "a\n" ends with a newline after
its final line, yet reading it into a FileArtifact and rendering the artifact
back yields "a", which differs from the original content. -/
theorem c6_roundtrip_counterexample :
    FileArtifact.display (FileArtifact.parse_content (str "f") (str "a\n")) = str "a"
    ∧ str "a" ≠ str "a\n" := by
  constructor
  · decide
  · decide

/-- Claim C6 (amended): for carriage-return-free content that ends with a
newline, reading it into a FileArtifact and rendering the artifact back
reproduces the content with that single trailing newline removed (so the
round trip is byte-for-byte only up to the final newline). -/
theorem c6_roundtrip_amended (path cs : Str) (h1 : '\r' ∉ cs) (h2 : cs.getLast? = some '\n') :
    FileArtifact.display (FileArtifact.parse_content path cs) = cs.dropLast := by
  have hne : cs ≠ [] := by
    intro h; rw [h] at h2; simp at h2
  have hdecomp : cs.dropLast ++ [] ++ [cs.getLast hne] = cs := by
    simpa using List.dropLast_append_getLast hne
  have hlast : cs.getLast hne = '\n' := by
    have := List.getLast?_eq_getLast cs hne
    rw [h2] at this
    exact (Option.some_inj.1 this.symm)
  have hcs : cs = cs.dropLast ++ ['\n'] := by
    rw [← hlast]
    simpa using hdecomp.symm
  unfold FileArtifact.display FileArtifact.parse_content rustLines
  rw [hcs]
  rw [splitOnP_append_sep (fun c => c = '\n') '\n' (by simp) cs.dropLast]
  rw [rustLinesAux_append_empty]
  · rw [joinWith_splitOnP]; simp
  · intro l hl
    apply stripCR_of_not_mem
    intro hr
    apply h1
    rw [hcs]
    exact List.mem_append_left _ (mem_of_mem_splitOnP _ hl hr)

/-- Witness for c6_roundtrip_amended at the concrete content "a\nb\n". -/
theorem c6_roundtrip_amended_witness :
    FileArtifact.display (FileArtifact.parse_content (str "f") (str "a\nb\n"))
      = (str "a\nb\n").dropLast :=
  c6_roundtrip_amended (str "f") (str "a\nb\n") (by decide) (by decide)

/- ----------------------------------------------------- patch/matching.rs -/

/-- patch/matching.rs: a MatchId is an optional line number in 1-based line
number space. -/
abbrev MatchId := Option Nat

/-- patch/matching.rs: a Matching owns both matched artifacts and one vector
of match ids per file; entry i of source_to_target is the 0-based match for
source line i+1, stored without the +1 offset. -/
structure Matching where
  source : FileArtifact
  target : FileArtifact
  source_to_target : List MatchId
  target_to_source : List MatchId
deriving DecidableEq

/-- Matching::target_index with release-mode usize arithmetic: for
source_index = 0 the index source_index - 1 wraps far past the end of the
vector, so the lookup is out of range and yields none; for positive input it
reads entry source_index - 1 and shifts a found counterpart by +1. The
debug-build underflow panic at 0 is modeled by target_index_checked below. -/
def Matching.target_index (m : Matching) (source_index : Nat) : Option MatchId :=
  match source_index with
  | 0 => none
  | Nat.succ k => (m.source_to_target[k]?).map (fun v => v.map (fun v => v + 1))

/-- Matching::source_index, symmetric to target_index. -/
def Matching.source_index (m : Matching) (target_index : Nat) : Option MatchId :=
  match target_index with
  | 0 => none
  | Nat.succ k => (m.target_to_source[k]?).map (fun v => v.map (fun v => v + 1))

/-- The while loop of Matching::target_index_fuzzy; the arguments mirror the
mutable line_number, match_offset and insert_after variables. The MatchOffset
newtype is modeled as a plain Nat. The none fallback in the found branch is
unreachable (the loop guard ensures the entry exists). -/
def Matching.fuzzy_loop (m : Matching) : Nat → Nat → Bool → MatchId × Nat
  | 0, offset, _ => (none, offset)
  | Nat.succ k, offset, insert_after =>
    if (m.target_index (k + 1)).join.isNone then
      Matching.fuzzy_loop m k (offset + 1) true
    else
      match m.target_index (k + 1) with
      | some target_line =>
        if insert_after then (target_line.map (fun v => v + 1), offset)
        else (target_line, offset)
      | none => (none, offset)

/-- Matching::target_index_fuzzy: searches upward from line_number for the
closest source line with a concrete target match. -/
def Matching.target_index_fuzzy (m : Matching) (line_number : Nat) : MatchId × Nat :=
  Matching.fuzzy_loop m line_number 0 false

theorem fuzzy_loop_found (m : Matching) (j t off : Nat) (ia : Bool)
    (hj : 1 ≤ j) (ht : (m.target_index j).join = some t) :
    m.fuzzy_loop j off ia = ((if ia then some (t + 1) else some t), off) := by
  cases j with
  | zero => omega
  | succ k =>
    have houter : m.target_index (k + 1) = some (some t) := by
      cases h : m.target_index (k + 1) with
      | none => rw [h] at ht; simp at ht
      | some v =>
        rw [h] at ht
        cases v with
        | none => simp at ht
        | some u => simp at ht; rw [ht]
    simp only [Matching.fuzzy_loop, ht, houter]
    cases ia <;> simp

theorem fuzzy_loop_none (m : Matching) (n off : Nat) (ia : Bool)
    (h : ∀ i, 1 ≤ i → i ≤ n → (m.target_index i).join = none) :
    m.fuzzy_loop n off ia = (none, off + n) := by
  induction n generalizing off ia with
  | zero => simp [Matching.fuzzy_loop]
  | succ k ih =>
    have hk : (m.target_index (k + 1)).join = none := h (k + 1) (by omega) (by omega)
    simp only [Matching.fuzzy_loop, hk, Option.isNone_none, if_true]
    rw [ih (off + 1) true (fun i h1 h2 => h i h1 (by omega))]
    congr 1
    omega

theorem fuzzy_loop_above (m : Matching) (n j t off : Nat) (ia : Bool)
    (hj : 1 ≤ j) (hjn : j < n) (ht : (m.target_index j).join = some t)
    (habove : ∀ i, j < i → i ≤ n → (m.target_index i).join = none) :
    m.fuzzy_loop n off ia = (some (t + 1), off + (n - j)) := by
  induction n generalizing off ia with
  | zero => omega
  | succ k ih =>
    have hk : (m.target_index (k + 1)).join = none := habove (k + 1) (by omega) (by omega)
    simp only [Matching.fuzzy_loop, hk, Option.isNone_none, if_true]
    by_cases hjk : j = k
    · subst hjk
      rw [fuzzy_loop_found m j t (off + 1) true hj ht]
      simp only [if_true]
      congr 1
      omega
    · rw [ih (off + 1) true (by omega) (fun i h1 h2 => habove i h1 (by omega))]
      congr 1
      omega

/-- Claim C1: target_index_fuzzy walks upward from n to the nearest source line
with a concrete target match: at offset 0 it returns that line's target match
unchanged; at positive offset k with target match t it returns t + 1 together
with offset k; and when no source line at or above n is matched it returns
none together with offset n. -/
theorem c1_target_index_fuzzy (m : Matching) (n : Nat) (hn : 1 ≤ n) :
    (∀ t, (m.target_index n).join = some t → m.target_index_fuzzy n = (some t, 0))
    ∧ (∀ j t, 1 ≤ j → j < n → (m.target_index j).join = some t →
        (∀ i, j < i → i ≤ n → (m.target_index i).join = none) →
        m.target_index_fuzzy n = (some (t + 1), n - j))
    ∧ ((∀ i, 1 ≤ i → i ≤ n → (m.target_index i).join = none) →
        m.target_index_fuzzy n = (none, n)) := by
  refine ⟨fun t ht => ?_, fun j t hj hjn ht habove => ?_, fun h => ?_⟩
  · have := fuzzy_loop_found m n t 0 false hn ht
    simpa [Matching.target_index_fuzzy] using this
  · have := fuzzy_loop_above m n j t 0 false hj hjn ht habove
    simpa [Matching.target_index_fuzzy] using this
  · have := fuzzy_loop_none m n 0 false h
    simpa [Matching.target_index_fuzzy] using this

/-- A concrete matching used to instantiate c1_target_index_fuzzy: source line
1 is matched to target line 1, source lines 2 and 3 are unmatched. -/
def matchingC1 : Matching :=
  { source := { path := str "s", lines := [str "a", str "b", str "c"] }
    target := { path := str "t", lines := [str "a"] }
    source_to_target := [some 0, none, none]
    target_to_source := [some 0] }

/-- Witness for c1_target_index_fuzzy: querying line 3 of matchingC1 walks up
to the match of line 1 and returns its target line plus one, at offset 2. -/
theorem c1_target_index_fuzzy_witness : matchingC1.target_index_fuzzy 3 = (some 2, 2) := by
  have h := c1_target_index_fuzzy matchingC1 3 (by decide)
  have h2 := h.2.1 1 1 (by decide) (by decide) (by decide)
    (by intro i h1 h2; interval_cases i <;> decide)
  simpa using h2

/- --------------------------------------- patch.rs and patch/alignment.rs -/

/-- patch.rs: the two possible change types for a line. -/
inductive LineChangeType
  | Add
  | Remove
deriving DecidableEq

/-- patch.rs Ord for LineChangeType: Removes are ordered before Adds. -/
def LineChangeType.cmp : LineChangeType → LineChangeType → Ordering
  | .Add, .Add => .eq
  | .Add, .Remove => .gt
  | .Remove, .Add => .lt
  | .Remove, .Remove => .eq

/-- Numeric rank realizing the Remove-before-Add order of LineChangeType. -/
def LineChangeType.rank : LineChangeType → Nat
  | .Remove => 0
  | .Add => 1

/-- patch.rs: the three possible change types for a file. -/
inductive FileChangeType
  | Create
  | Remove
  | Modify
deriving DecidableEq

/-- patch.rs: a single line change with content, type, line number, and id. -/
structure Change where
  line : Str
  change_type : LineChangeType
  line_number : Nat
  change_id : Nat
deriving DecidableEq

/-- patch.rs Ord for Change: first the line number, then the change type with
Remove before Add, then the change id. -/
def Change.cmp (a b : Change) : Ordering :=
  match compare a.line_number b.line_number with
  | .eq =>
    match LineChangeType.cmp a.change_type b.change_type with
    | .eq => compare a.change_id b.change_id
    | o => o
  | o => o

/-- The non-strict order induced by Change.cmp; Vec::sort orders by it. -/
def Change.le (a b : Change) : Prop := Change.cmp a b ≠ Ordering.gt

instance : DecidableRel Change.le := fun a b => by unfold Change.le; infer_instance

theorem LineChangeType.cmp_eq_compare_rank (a b : LineChangeType) :
    LineChangeType.cmp a b = compare a.rank b.rank := by
  cases a <;> cases b <;> decide

theorem Change.le_iff_lex (a b : Change) :
    Change.le a b ↔
      (a.line_number < b.line_number
        ∨ (a.line_number = b.line_number
            ∧ (a.change_type.rank < b.change_type.rank
                ∨ (a.change_type.rank = b.change_type.rank ∧ a.change_id ≤ b.change_id)))) := by
  unfold Change.le Change.cmp
  rw [LineChangeType.cmp_eq_compare_rank]
  cases h1 : compare a.line_number b.line_number with
  | lt =>
    have := Nat.compare_eq_lt.1 h1
    simp [this]
  | gt =>
    have := Nat.compare_eq_gt.1 h1
    simp only [ne_eq, not_true_eq_false, false_iff]
    omega
  | eq =>
    have h1' := Nat.compare_eq_eq.1 h1
    cases h2 : compare a.change_type.rank b.change_type.rank with
    | lt =>
      have := Nat.compare_eq_lt.1 h2
      simp [h1', this]
    | gt =>
      have := Nat.compare_eq_gt.1 h2
      simp only [ne_eq, not_true_eq_false, false_iff]
      omega
    | eq =>
      have h2' := Nat.compare_eq_eq.1 h2
      cases h3 : compare a.change_id b.change_id with
      | lt =>
        have := Nat.compare_eq_lt.1 h3
        simp only [ne_eq]
        constructor
        · intro _; omega
        · intro _; simp
      | eq =>
        have := Nat.compare_eq_eq.1 h3
        simp only [ne_eq]
        constructor
        · intro _; omega
        · intro _; simp
      | gt =>
        have := Nat.compare_eq_gt.1 h3
        simp only [ne_eq, not_true_eq_false, false_iff]
        omega

instance : IsTotal Change Change.le :=
  ⟨fun a b => by rw [Change.le_iff_lex, Change.le_iff_lex]; omega⟩

instance : IsTrans Change Change.le :=
  ⟨fun a b c hab hbc => by
    rw [Change.le_iff_lex] at hab hbc ⊢
    omega⟩

/-- patch.rs: a FilePatch bundles the changes of one FileDiff with the file
change type. -/
structure FilePatch where
  changes : List Change
  change_type : FileChangeType
deriving DecidableEq

/-- patch.rs: an AlignedPatch owns changes anchored in target-line space, the
rejected changes, the target artifact, and the file change type. -/
structure AlignedPatch where
  changes : List Change
  rejected_changes : List Change
  target : FileArtifact
  change_type : FileChangeType
deriving DecidableEq

/-- patch.rs: the outcome of a patch application. -/
structure PatchOutcome where
  patched_file : FileArtifact
  rejected_changes : List Change
  change_type : FileChangeType
deriving DecidableEq

/-- patch/alignment.rs: the target line chosen for one change. Adds take the
first component of target_index_fuzzy, with fallback 0 (prepend) when no line
above is matched; Removes take the flattened exact match of their source
line. -/
def align_target_line (m : Matching) (c : Change) : Option Nat :=
  match c.change_type with
  | LineChangeType.Add =>
    match (m.target_index_fuzzy c.line_number).1 with
    | some t => some t
    | none => some 0
  | LineChangeType.Remove => (m.target_index c.line_number).join

/-- The for loop of align_to_target: aligned changes (with the rewritten line
number) on the left, rejects on the right, both in input order. -/
def align_loop (m : Matching) : List Change → List Change × List Change
  | [] => ([], [])
  | c :: cs =>
    let rest := align_loop m cs
    match align_target_line m c with
    | some t => ({ c with line_number := t } :: rest.1, rest.2)
    | none => (rest.1, c :: rest.2)

/-- patch/alignment.rs align_to_target. Rust Vec::sort is a stable sort by the
Ord instance; it is modeled by insertion sort with the non-strict order
Change.le, which is also stable, and a stable sort by a total preorder is
uniquely determined. -/
def align_to_target (patch : FilePatch) (target_matching : Matching) : AlignedPatch :=
  if patch.change_type = FileChangeType.Create then
    { changes := patch.changes
      rejected_changes := []
      target := target_matching.target
      change_type := patch.change_type }
  else
    { changes := List.insertionSort Change.le (align_loop target_matching patch.changes).1
      rejected_changes := (align_loop target_matching patch.changes).2
      target := target_matching.target
      change_type := patch.change_type }

theorem align_target_line_add_isSome (m : Matching) (c : Change)
    (h : c.change_type = LineChangeType.Add) : (align_target_line m c).isSome := by
  unfold align_target_line
  rw [h]
  cases (m.target_index_fuzzy c.line_number).1 <;> simp

theorem align_loop_snd (m : Matching) (cs : List Change) :
    (align_loop m cs).2 = cs.filter (fun c => (align_target_line m c).isNone) := by
  induction cs with
  | nil => rfl
  | cons c cs ih =>
    simp only [align_loop]
    cases h : align_target_line m c with
    | some t => simp [List.filter_cons, h, ih]
    | none => simp [List.filter_cons, h, ih]

theorem align_loop_fst (m : Matching) (cs : List Change) :
    (align_loop m cs).1 =
      (cs.filter (fun c => (align_target_line m c).isSome)).map
        (fun c => { c with line_number := (align_target_line m c).getD 0 }) := by
  induction cs with
  | nil => rfl
  | cons c cs ih =>
    simp only [align_loop]
    cases h : align_target_line m c with
    | some t => simp [List.filter_cons, h, ih]
    | none => simp [List.filter_cons, h, ih]

theorem align_target_line_isNone_iff (m : Matching) (c : Change) :
    (align_target_line m c).isNone =
      decide (c.change_type = LineChangeType.Remove
        ∧ (m.target_index c.line_number).join = none) := by
  cases hct : c.change_type with
  | Add =>
    have h := align_target_line_add_isSome m c hct
    rcases Option.isSome_iff_exists.1 h with ⟨t, ht⟩
    simp [ht, hct]
  | Remove =>
    unfold align_target_line
    rw [hct]
    cases h : (m.target_index c.line_number).join <;> simp [h]

/-- Claim C2: when aligning a Modify or Remove FilePatch, the rejected changes
are exactly the Remove changes whose source line has no exact counterpart in
the target; a matched Remove is aligned to exactly its target match, and every
Remove among the surviving aligned changes is anchored at exactly the target
match of some Remove of the patch (so unmatched Removes are never applied
fuzzily). -/
theorem c2_remove_strictness (patch : FilePatch) (m : Matching)
    (h : patch.change_type ≠ FileChangeType.Create) :
    ((align_to_target patch m).rejected_changes
      = patch.changes.filter (fun c =>
          decide (c.change_type = LineChangeType.Remove
            ∧ (m.target_index c.line_number).join = none)))
    ∧ (∀ c ∈ patch.changes, c.change_type = LineChangeType.Remove →
        ∀ t, (m.target_index c.line_number).join = some t →
          { c with line_number := t } ∈ (align_to_target patch m).changes)
    ∧ (∀ c' ∈ (align_to_target patch m).changes, c'.change_type = LineChangeType.Remove →
        ∃ c, c ∈ patch.changes ∧ c.change_type = LineChangeType.Remove
          ∧ (m.target_index c.line_number).join = some c'.line_number
          ∧ c' = { c with line_number := c'.line_number }) := by
  have hout : align_to_target patch m =
      { changes := List.insertionSort Change.le (align_loop m patch.changes).1
        rejected_changes := (align_loop m patch.changes).2
        target := m.target
        change_type := patch.change_type } := by
    unfold align_to_target
    rw [if_neg h]
  refine ⟨?_, ?_, ?_⟩
  · rw [hout]
    show (align_loop m patch.changes).2 = _
    rw [align_loop_snd]
    exact List.filter_congr (fun c _ => align_target_line_isNone_iff m c)
  · intro c hc hct t ht
    rw [hout]
    show _ ∈ List.insertionSort Change.le (align_loop m patch.changes).1
    rw [(List.perm_insertionSort Change.le _).mem_iff]
    rw [align_loop_fst]
    have halign : align_target_line m c = some t := by
      unfold align_target_line
      rw [hct]
      exact ht
    refine List.mem_map.2 ⟨c, List.mem_filter.2 ⟨hc, by simp [halign]⟩, ?_⟩
    rw [halign]
    rfl
  · intro c' hc' hct'
    rw [hout] at hc'
    replace hc' : c' ∈ (align_loop m patch.changes).1 :=
      ((List.perm_insertionSort Change.le _).mem_iff).1 hc'
    rw [align_loop_fst] at hc'
    rcases List.mem_map.1 hc' with ⟨c, hcf, hceq⟩
    rcases List.mem_filter.1 hcf with ⟨hcmem, hcsome⟩
    rcases Option.isSome_iff_exists.1 (by simpa using hcsome) with ⟨t, ht⟩
    have hct : c.change_type = LineChangeType.Remove := by
      have : c'.change_type = c.change_type := by rw [← hceq]
      rw [← this, hct']
    have hln : c'.line_number = t := by
      rw [← hceq, ht]
      rfl
    refine ⟨c, hcmem, hct, ?_, ?_⟩
    · have : align_target_line m c = (m.target_index c.line_number).join := by
        unfold align_target_line
        rw [hct]
      rw [← this, ht, hln]
    · rw [← hceq, ht]

/-- Concrete inputs for the c2 witness: a Modify patch with one matched Remove
at source line 1 and one unmatched Remove at source line 2. -/
def patchC2 : FilePatch :=
  { changes :=
      [ { line := str "a", change_type := LineChangeType.Remove, line_number := 1, change_id := 0 }
      , { line := str "b", change_type := LineChangeType.Remove, line_number := 2, change_id := 1 } ]
    change_type := FileChangeType.Modify }

/-- Witness for c2_remove_strictness on patchC2 and matchingC1: the unmatched
Remove is rejected and the matched Remove is aligned to target line 1. -/
theorem c2_remove_strictness_witness :
    (align_to_target patchC2 matchingC1).rejected_changes
      = [ { line := str "b", change_type := LineChangeType.Remove
          , line_number := 2, change_id := 1 } ]
    ∧ { line := str "a", change_type := LineChangeType.Remove
      , line_number := 1, change_id := 0 } ∈ (align_to_target patchC2 matchingC1).changes := by
  have h := c2_remove_strictness patchC2 matchingC1 (by decide)
  constructor
  · rw [h.1]
    decide
  · have := h.2.1
      { line := str "a", change_type := LineChangeType.Remove, line_number := 1, change_id := 0 }
      (by decide) (by decide) 1 (by decide)
    simpa using this

/-- A FilePatch of type Create whose changes are not ordered by line number. -/
def patchC3 : FilePatch :=
  { changes :=
      [ { line := str "x", change_type := LineChangeType.Add, line_number := 5, change_id := 0 }
      , { line := str "y", change_type := LineChangeType.Add, line_number := 2, change_id := 1 } ]
    change_type := FileChangeType.Create }

/-- Claim C3 (counterexample): for a Create patch, align_to_target passes the
changes through without sorting, so the non-rejected changes of the returned
AlignedPatch need not be sorted by (target line, Remove before Add, change
id). -/
theorem c3_sorted_counterexample :
    (align_to_target patchC3 matchingC1).changes
      = [ { line := str "x", change_type := LineChangeType.Add
          , line_number := 5, change_id := 0 }
        , { line := str "y", change_type := LineChangeType.Add
          , line_number := 2, change_id := 1 } ]
    ∧ ¬ Change.le
        { line := str "x", change_type := LineChangeType.Add, line_number := 5, change_id := 0 }
        { line := str "y", change_type := LineChangeType.Add, line_number := 2, change_id := 1 } := by
  constructor
  · decide
  · decide

/-- Claim C3 (amended): for every Modify or Remove FilePatch, the non-rejected
changes of the AlignedPatch returned by align_to_target are sorted by target
line number ascending, then by change type with Remove before Add, then by
change id ascending; for Create patches the changes pass through in their
original diff order without sorting. -/
theorem c3_sorted_amended (patch : FilePatch) (m : Matching)
    (h : patch.change_type ≠ FileChangeType.Create) :
    List.Pairwise
      (fun a b : Change =>
        a.line_number < b.line_number
          ∨ (a.line_number = b.line_number
              ∧ (a.change_type.rank < b.change_type.rank
                  ∨ (a.change_type.rank = b.change_type.rank ∧ a.change_id ≤ b.change_id))))
      (align_to_target patch m).changes := by
  have hout : (align_to_target patch m).changes =
      List.insertionSort Change.le (align_loop m patch.changes).1 := by
    unfold align_to_target
    rw [if_neg h]
  rw [hout]
  have hs := List.sorted_insertionSort Change.le (align_loop m patch.changes).1
  exact hs.imp (fun hab => (Change.le_iff_lex _ _).1 hab)

/-- Witness for c3_sorted_amended: the changes of patchC2 aligned to matchingC1
are sorted in the lexicographic order of the claim. -/
theorem c3_sorted_amended_witness :
    List.Pairwise
      (fun a b : Change =>
        a.line_number < b.line_number
          ∨ (a.line_number = b.line_number
              ∧ (a.change_type.rank < b.change_type.rank
                  ∨ (a.change_type.rank = b.change_type.rank ∧ a.change_id ≤ b.change_id))))
      (align_to_target patchC2 matchingC1).changes :=
  c3_sorted_amended patchC2 matchingC1 (by decide)

/- ----------------------------------------------------- patch/filtering.rs -/

/-- The FilteredPatch produced by Filter::apply_filter: surviving changes,
rejected changes, and the file change type. -/
structure FilteredPatch where
  changes : List Change
  rejected_changes : List Change
  change_type : FileChangeType
deriving DecidableEq

/-- patch/filtering.rs DistanceFilter::keep_change: Removes are always kept;
an Add is kept iff its fuzzy match offset is strictly below the threshold. -/
def DistanceFilter.keep_change (max_distance : Nat) (c : Change) (m : Matching) : Bool :=
  if c.change_type = LineChangeType.Remove then true
  else decide ((m.target_index_fuzzy c.line_number).2 < max_distance)

/-- patch/filtering.rs InsideMatchFilter::keep_change with release-mode usize
arithmetic (for i at least line_number the wrapped index line_number - i is far
out of range, so the probe yields none). A Remove is kept iff target_index on
its own line returns an entry at all (matched or not); an Add is kept iff both
probes at every distance i < k return an entry at all. The debug-build
underflow is modeled by InsideMatchFilter.keep_change_checked. -/
def InsideMatchFilter.keep_change (k : Nat) (c : Change) (m : Matching) : Bool :=
  if c.change_type = LineChangeType.Remove then
    (m.target_index c.line_number).isSome
  else
    (List.range k).all (fun i =>
      (m.target_index (c.line_number - i)).isSome
        && (m.target_index (c.line_number + i)).isSome)

/-- The shared body of Filter::apply_filter: changes are partitioned, in
order, into kept and rejected by the filter predicate. -/
def apply_filter (keep : Change → Bool) (patch : FilePatch) : FilteredPatch :=
  { changes := patch.changes.filter keep
    rejected_changes := patch.changes.filter (fun c => ! keep c)
    change_type := patch.change_type }

theorem target_index_isSome_iff (m : Matching) (n : Nat) :
    (m.target_index n).isSome = true ↔ 1 ≤ n ∧ n ≤ m.source_to_target.length := by
  cases n with
  | zero => simp [Matching.target_index]
  | succ k =>
    simp only [Matching.target_index]
    constructor
    · intro h
      cases hk' : m.source_to_target[k]? with
      | none => rw [hk'] at h; simp at h
      | some a =>
        obtain ⟨hlt, _⟩ := List.getElem?_eq_some_iff.1 hk'
        omega
    · intro h
      have hk : k < m.source_to_target.length := by omega
      rw [List.getElem?_eq_getElem hk]
      rfl

/-- A matching whose single source line is in range but unmatched. -/
def matchingC7 : Matching :=
  { source := { path := str "s", lines := [str "a"] }
    target := { path := str "t", lines := [str "b"] }
    source_to_target := [none]
    target_to_source := [none] }

/-- Claim C7 (counterexample): a Remove anchored at source line 1 of matchingC7
is kept by InsideMatchFilter (target_index returns an entry), although that
source line has no concrete target match. -/
theorem c7_keep_change_counterexample :
    InsideMatchFilter.keep_change 1
      { line := str "r", change_type := LineChangeType.Remove, line_number := 1, change_id := 0 }
      matchingC7 = true
    ∧ (matchingC7.target_index 1).join = none := by
  constructor
  · decide
  · decide

/-- Claim C7 (amended): InsideMatchFilter(k) keeps a Remove iff its own source
line lies inside the range processed by the matcher (regardless of whether it
is concretely matched), and keeps an Add iff for every distance i < k both the
line i above and the line i below its anchor lie inside that processed range
(again regardless of concrete matches). -/
theorem c7_keep_change_amended (k : Nat) (c : Change) (m : Matching) :
    (c.change_type = LineChangeType.Remove →
      (InsideMatchFilter.keep_change k c m = true
        ↔ (1 ≤ c.line_number ∧ c.line_number ≤ m.source_to_target.length)))
    ∧ (c.change_type = LineChangeType.Add →
      (InsideMatchFilter.keep_change k c m = true
        ↔ ∀ i, i < k →
            (i < c.line_number ∧ c.line_number + i ≤ m.source_to_target.length))) := by
  constructor
  · intro hct
    unfold InsideMatchFilter.keep_change
    rw [if_pos hct]
    exact target_index_isSome_iff m c.line_number
  · intro hct
    unfold InsideMatchFilter.keep_change
    rw [if_neg (by rw [hct]; simp)]
    rw [List.all_eq_true]
    constructor
    · intro h i hi
      have := h i (List.mem_range.2 hi)
      rw [Bool.and_eq_true, target_index_isSome_iff, target_index_isSome_iff] at this
      omega
    · intro h i hi
      have := h i (List.mem_range.1 hi)
      rw [Bool.and_eq_true, target_index_isSome_iff, target_index_isSome_iff]
      omega

/-- Witness for c7_keep_change_amended: with matchingC1 (three processed
source lines) and an Add at line 2, InsideMatchFilter(2) would require line 4
below to be processed, so the Add is rejected. -/
theorem c7_keep_change_amended_witness :
    InsideMatchFilter.keep_change 2
      { line := str "x", change_type := LineChangeType.Add, line_number := 3, change_id := 0 }
      matchingC1 = false := by
  have h := (c7_keep_change_amended 2
    { line := str "x", change_type := LineChangeType.Add, line_number := 3, change_id := 0 }
    matchingC1).2 rfl
  cases hk : InsideMatchFilter.keep_change 2
      { line := str "x", change_type := LineChangeType.Add, line_number := 3, change_id := 0 }
      matchingC1 with
  | false => rfl
  | true =>
    rw [hk] at h
    have := (h.1 rfl) 1 (by decide)
    simp [matchingC1] at this

/- usize debug-mode arithmetic for C10. -/

/-- Checked usize subtraction: none models the debug-build overflow panic. -/
def usize_checked_sub (a b : Nat) : Option Nat := if b ≤ a then some (a - b) else none

/-- Matching::target_index with debug-mode arithmetic: the vector read at
index source_index - 1 first performs the checked subtraction; the outer none
models the underflow panic at source_index = 0. -/
def Matching.target_index_checked (m : Matching) (source_index : Nat) :
    Option (Option MatchId) :=
  (usize_checked_sub source_index 1).map
    (fun k => (m.source_to_target[k]?).map (fun v => v.map (fun v => v + 1)))

/-- Matching::source_index with debug-mode arithmetic, symmetric to
target_index_checked. -/
def Matching.source_index_checked (m : Matching) (target_index : Nat) :
    Option (Option MatchId) :=
  (usize_checked_sub target_index 1).map
    (fun k => (m.target_to_source[k]?).map (fun v => v.map (fun v => v + 1)))

/-- The probe loop of InsideMatchFilter::keep_change over the distances
i = 0, ..., k-1, with debug-mode arithmetic; the outer none models a panic in
line_number - i or inside target_index. -/
def inside_loop (m : Matching) (line_number : Nat) : List Nat → Option Bool
  | [] => some true
  | i :: is =>
    (usize_checked_sub line_number i).bind (fun d =>
      (m.target_index_checked d).bind (fun above =>
        if above.isNone then some false
        else
          (m.target_index_checked (line_number + i)).bind (fun below =>
            if below.isNone then some false
            else inside_loop m line_number is)))

/-- InsideMatchFilter::keep_change with debug-mode arithmetic; none models a
panic. -/
def InsideMatchFilter.keep_change_checked (k : Nat) (c : Change) (m : Matching) :
    Option Bool :=
  if c.change_type = LineChangeType.Remove then
    (m.target_index_checked c.line_number).map Option.isSome
  else inside_loop m c.line_number (List.range k)

theorem target_index_checked_pos (m : Matching) (d : Nat) (hd : 1 ≤ d) :
    m.target_index_checked d
      = some ((m.source_to_target[d - 1]?).map (fun v => v.map (fun v => v + 1))) := by
  unfold Matching.target_index_checked usize_checked_sub
  rw [if_pos hd]
  rfl

theorem inside_loop_reaches_zero (m : Matching) (ln : Nat) :
    ∀ (cnt s : Nat), s ≤ ln → ln < s + cnt →
      (∀ i, s ≤ i → i < ln → ln - i ≤ m.source_to_target.length
        ∧ ln + i ≤ m.source_to_target.length) →
      inside_loop m ln (List.range' s cnt) = none := by
  intro cnt
  induction cnt with
  | zero => intro s h1 h2 _; omega
  | succ n ih =>
    intro s h1 h2 hrange
    rw [List.range'_succ]
    by_cases hs : s = ln
    · subst hs
      have hsub : usize_checked_sub s s = some 0 := by
        unfold usize_checked_sub
        rw [if_pos (le_refl s), Nat.sub_self]
      have hzero : m.target_index_checked 0 = none := rfl
      unfold inside_loop
      rw [hsub]
      simp only [Option.some_bind]
      rw [hzero]
      rfl
    · have hslt : s < ln := by omega
      have hprobe := hrange s (le_refl s) hslt
      have hsub : usize_checked_sub ln s = some (ln - s) := by
        unfold usize_checked_sub
        rw [if_pos (by omega)]
      unfold inside_loop
      rw [hsub]
      simp only [Option.some_bind]
      rw [target_index_checked_pos m (ln - s) (by omega)]
      simp only [Option.some_bind]
      have hk1 : ln - s - 1 < m.source_to_target.length := by omega
      rw [List.getElem?_eq_getElem hk1]
      simp only [Option.map_some', Option.isNone_some, Bool.false_eq_true, if_false]
      rw [target_index_checked_pos m (ln + s) (by omega)]
      simp only [Option.some_bind]
      have hk2 : ln + s - 1 < m.source_to_target.length := by omega
      rw [List.getElem?_eq_getElem hk2]
      simp only [Option.map_some', Option.isNone_some, Bool.false_eq_true, if_false]
      exact ih (s + 1) (by omega) (by omega) (fun i hi1 hi2 => hrange i (by omega) hi2)

/-- Claim C10: Matching::target_index and Matching::source_index are not total
at line number 0: the debug-build index computation subtracts 1 from an
unsigned zero and underflows (modeled as none). Consequently
InsideMatchFilter(k).keep_change, which probes line_number - i for i < k,
underflows for an Add change anchored fewer than k lines from the top of the
source file (provided the earlier probes stay inside the processed range, so
that the loop is not exited early). -/
theorem c10_index_underflow (m : Matching) (k : Nat) (c : Change)
    (hct : c.change_type = LineChangeType.Add)
    (hlk : c.line_number < k)
    (hlen : 2 * c.line_number ≤ m.source_to_target.length + 1) :
    m.target_index_checked 0 = none
    ∧ m.source_index_checked 0 = none
    ∧ InsideMatchFilter.keep_change_checked k c m = none := by
  refine ⟨rfl, rfl, ?_⟩
  unfold InsideMatchFilter.keep_change_checked
  rw [if_neg (by rw [hct]; simp)]
  rw [List.range_eq_range']
  exact inside_loop_reaches_zero m c.line_number k 0 (by omega) (by omega)
    (fun i h1 h2 => by omega)

/-- Witness for c10_index_underflow: an Add at source line 1 with k = 2 and two
processed source lines makes the filter probe line_number - 1 - 1, which
underflows. -/
theorem c10_index_underflow_witness :
    InsideMatchFilter.keep_change_checked 2
      { line := str "x", change_type := LineChangeType.Add, line_number := 1, change_id := 0 }
      matchingC7 = none := by
  have h := c10_index_underflow matchingC7 2
    { line := str "x", change_type := LineChangeType.Add, line_number := 1, change_id := 0 }
    rfl (by decide) (by decide)
  exact h.2.2

/- ------------------------------------------- error.rs, patch/application.rs -/

/-- error.rs: the error kinds of the crate. -/
inductive ErrorKind
  | DiffParseError
  | IOError
  | PatchError
deriving DecidableEq

/-- error.rs: an Error couples a message with an ErrorKind. -/
structure Error where
  message : Str
  kind : ErrorKind
deriving DecidableEq

/-- The possible results of apply_patch: an Ok PatchOutcome, an Err of the
crate Error type, or a Rust panic (which unwinds instead of returning). -/
inductive ApplyResult
  | ok (outcome : PatchOutcome)
  | error (e : Error)
  | panicked
deriving DecidableEq

/-- True exactly on the Err constructor of ApplyResult. -/
def ApplyResult.isError : ApplyResult → Bool
  | .error _ => true
  | _ => false

/-- The key Vec::sort_by uses in reject_all: line numbers only. -/
def reject_line_le (a b : Change) : Prop := a.line_number ≤ b.line_number

instance : DecidableRel reject_line_le := fun a b => by
  unfold reject_line_le; infer_instance

instance : IsTotal Change reject_line_le :=
  ⟨fun a b => by unfold reject_line_le; omega⟩

instance : IsTrans Change reject_line_le :=
  ⟨fun a b c h1 h2 => by unfold reject_line_le at *; omega⟩

/-- patch/application.rs reject_all: pops all surviving changes, then all
previously rejected changes (each pop loop reverses its list), and sorts the
combined list by line number with the stable Vec::sort_by, modeled by stable
insertion sort. -/
def reject_all (patch : AlignedPatch) : AlignedPatch :=
  { patch with
    changes := []
    rejected_changes :=
      List.insertionSort reject_line_le
        (patch.changes.reverse ++ patch.rejected_changes.reverse) }

/-- The trailing loop of apply_file_modification, run after the target input
lines are exhausted: remaining Adds are appended; a remaining Remove hits the
panic (modeled as none). -/
def modify_finish : List Change → Option (List Str)
  | [] => some []
  | c :: cs =>
    match c.change_type with
    | LineChangeType.Add => (modify_finish cs).map (fun out => c.line :: out)
    | LineChangeType.Remove => none

/-- The inner while loop of apply_file_modification for one input line with
counter n: consumes eligible pending changes in order; returns the Add
contents emitted, the remaining changes, and whether a Remove consumed the
current input line (the continue of the lines loop). -/
def consume_for_line (n : Nat) : List Change → List Str × List Change × Bool
  | [] => ([], [], false)
  | c :: cs =>
    if c.change_type = LineChangeType.Add ∧ c.line_number ≤ n then
      let rest := consume_for_line n cs
      (c.line :: rest.1, rest.2.1, rest.2.2)
    else if c.change_type = LineChangeType.Remove ∧ c.line_number = n then
      ([], cs, true)
    else
      ([], c :: cs, false)

/-- The lines loop of apply_file_modification: walks the target lines with the
running counter, interleaving pending changes; none models the final panic on
a leftover Remove. -/
def modify_walk : List Str → Nat → List Change → Option (List Str)
  | [], _, changes => modify_finish changes
  | line :: rest, n, changes =>
    let step := consume_for_line n changes
    if step.2.2 then
      (modify_walk rest (n + 1) step.2.1).map (fun out => step.1 ++ out)
    else
      (modify_walk rest (n + 1) step.2.1).map (fun out => step.1 ++ line :: out)

/-- patch/application.rs apply_file_modification (the pure part: writing back
to disk is dryrun-controlled I/O outside the model). -/
def apply_file_modification (patch : AlignedPatch) : ApplyResult :=
  match modify_walk patch.target.lines 1 patch.changes with
  | some patched_lines =>
    ApplyResult.ok
      { patched_file := { path := patch.target.path, lines := patched_lines }
        rejected_changes := patch.rejected_changes
        change_type := patch.change_type }
  | none => ApplyResult.panicked

/-- patch/application.rs apply_file_creation (pure part). -/
def apply_file_creation (patch : AlignedPatch) : ApplyResult :=
  ApplyResult.ok
    { patched_file := { path := patch.target.path, lines := patch.changes.map (fun c => c.line) }
      rejected_changes := patch.rejected_changes
      change_type := patch.change_type }

/-- patch/application.rs apply_file_removal (pure part): the resulting
artifact has no lines. -/
def apply_file_removal (patch : AlignedPatch) : ApplyResult :=
  ApplyResult.ok
    { patched_file := { path := patch.target.path, lines := [] }
      rejected_changes := patch.rejected_changes
      change_type := patch.change_type }

/-- patch/application.rs apply_patch. The file system is abstracted by the
target_exists flag (the Path::exists check on the target path); dryrun only
suppresses writes, which are outside the model. Write errors aside, the Err
constructor is never produced, and ErrorKind::PatchError is never constructed
anywhere in the crate. -/
def apply_patch (patch : AlignedPatch) (target_exists : Bool) (dryrun : Bool) : ApplyResult :=
  let reject_patch :=
    if patch.change_type = FileChangeType.Create then target_exists else ! target_exists
  if reject_patch then
    ApplyResult.ok
      { patched_file := (reject_all patch).target
        rejected_changes := (reject_all patch).rejected_changes
        change_type := (reject_all patch).change_type }
  else
    match patch.change_type with
    | FileChangeType.Create => apply_file_creation patch
    | FileChangeType.Remove => apply_file_removal patch
    | FileChangeType.Modify => apply_file_modification patch

/-- A Modify patch whose single aligned change is a Remove anchored at line 2
of a one-line target: the anchor lies past end of file. -/
def patchC4 : AlignedPatch :=
  { changes :=
      [ { line := str "second line", change_type := LineChangeType.Remove
        , line_number := 2, change_id := 0 } ]
    rejected_changes := []
    target := { path := str "t", lines := [str "first line"] }
    change_type := FileChangeType.Modify }

/-- Claim C4 (counterexample): a Remove left pending after the input lines are
exhausted makes the applier panic (mirroring the crate's own should_panic test
try_to_remove_lines_after_end); it does not fail with an error result of kind
PatchError — no error result is produced at all. -/
theorem c4_leftover_remove_counterexample :
    apply_patch patchC4 true false = ApplyResult.panicked
    ∧ (apply_patch patchC4 true false).isError = false := by
  constructor
  · decide
  · decide

/-- Claim C4 (amended): after the target input lines are exhausted, every
remaining pending Add is appended in order to the output; any remaining
pending Remove makes the applier panic (abnormal termination, never a
successful outcome); and applying a Modify patch never yields an error result
(in particular none of kind PatchError). -/
theorem c4_end_of_input_amended (changes : List Change) :
    ((∀ c ∈ changes, c.change_type = LineChangeType.Add) →
      modify_finish changes = some (changes.map (fun c => c.line)))
    ∧ ((∃ c ∈ changes, c.change_type = LineChangeType.Remove) →
      modify_finish changes = none)
    ∧ (∀ patch : AlignedPatch, (apply_file_modification patch).isError = false) := by
  refine ⟨?_, ?_, ?_⟩
  · intro h
    induction changes with
    | nil => rfl
    | cons c cs ih =>
      have hc := h c (List.mem_cons_self c cs)
      simp only [modify_finish, hc]
      rw [ih (fun d hd => h d (List.mem_cons_of_mem c hd))]
      rfl
  · intro h
    induction changes with
    | nil => simp at h
    | cons c cs ih =>
      rcases h with ⟨d, hd, hdr⟩
      rcases List.mem_cons.1 hd with hdc | hdc
      · subst hdc
        simp only [modify_finish, hdr]
      · cases hct : c.change_type with
        | Add =>
          simp only [modify_finish, hct]
          rw [ih ⟨d, hdc, hdr⟩]
          rfl
        | Remove => simp only [modify_finish, hct]
  · intro patch
    unfold apply_file_modification
    cases modify_walk patch.target.lines 1 patch.changes <;> rfl

/-- Witness for c4_end_of_input_amended: two pending Adds are appended in
order once the input is exhausted. -/
theorem c4_end_of_input_amended_witness :
    modify_finish
      [ { line := str "x", change_type := LineChangeType.Add, line_number := 2, change_id := 0 }
      , { line := str "y", change_type := LineChangeType.Add, line_number := 2, change_id := 1 } ]
      = some [str "x", str "y"] := by
  have h := (c4_end_of_input_amended
    [ { line := str "x", change_type := LineChangeType.Add, line_number := 2, change_id := 0 }
    , { line := str "y", change_type := LineChangeType.Add, line_number := 2, change_id := 1 } ]).1
    (by intro c hc; rcases List.mem_cons.1 hc with h | h
        · rw [h]
        · rcases List.mem_cons.1 h with h' | h'
          · rw [h']
          · simp at h')
  simpa using h

/-- Claim C5: applying a Create patch to an existing target, or a Modify or
Remove patch to a missing target, moves every change (surviving and previously
rejected) into the rejected list, which is sorted by anchor line number, and
returns the target artifact unchanged with the FileChangeType preserved. -/
theorem c5_precondition_violation (patch : AlignedPatch) (dryrun target_exists : Bool)
    (h : (patch.change_type = FileChangeType.Create ∧ target_exists = true)
       ∨ (patch.change_type ≠ FileChangeType.Create ∧ target_exists = false)) :
    apply_patch patch target_exists dryrun
      = ApplyResult.ok
          { patched_file := patch.target
            rejected_changes := List.insertionSort reject_line_le
              (patch.changes.reverse ++ patch.rejected_changes.reverse)
            change_type := patch.change_type }
    ∧ (List.insertionSort reject_line_le
        (patch.changes.reverse ++ patch.rejected_changes.reverse)).Perm
        (patch.changes ++ patch.rejected_changes)
    ∧ List.Pairwise (fun a b : Change => a.line_number ≤ b.line_number)
        (List.insertionSort reject_line_le
          (patch.changes.reverse ++ patch.rejected_changes.reverse)) := by
  refine ⟨?_, ?_, ?_⟩
  · unfold apply_patch
    rcases h with ⟨hct, hte⟩ | ⟨hct, hte⟩
    · rw [if_pos hct, hte]
      rfl
    · rw [if_neg hct, hte]
      rfl
  · exact (List.perm_insertionSort reject_line_le _).trans
      (List.Perm.append (List.reverse_perm patch.changes)
        (List.reverse_perm patch.rejected_changes))
  · exact (List.sorted_insertionSort reject_line_le _).imp (fun hab => hab)

/-- Witness for c5_precondition_violation: a Create patch applied to an
existing target path rejects its single change and returns the target
unchanged. -/
theorem c5_precondition_violation_witness :
    apply_patch
      { changes :=
          [ { line := str "x", change_type := LineChangeType.Add
            , line_number := 0, change_id := 0 } ]
        rejected_changes := []
        target := { path := str "t", lines := [str "old"] }
        change_type := FileChangeType.Create }
      true false
      = ApplyResult.ok
          { patched_file := { path := str "t", lines := [str "old"] }
            rejected_changes :=
              [ { line := str "x", change_type := LineChangeType.Add
                , line_number := 0, change_id := 0 } ]
            change_type := FileChangeType.Create } := by
  have h := (c5_precondition_violation
    { changes :=
        [ { line := str "x", change_type := LineChangeType.Add
          , line_number := 0, change_id := 0 } ]
      rejected_changes := []
      target := { path := str "t", lines := [str "old"] }
      change_type := FileChangeType.Create }
    false true (Or.inl ⟨rfl, rfl⟩)).1
  rw [h]
  decide

/- --------------------------------------------------------------- diffs.rs -/

/-- A diff-parsing failure: either a returned Err of the crate Error type, or
a Rust panic from one of the unwrap calls inside the parser. -/
inductive ParseFailure
  | err (e : Error)
  | panicked
deriving DecidableEq

/-- Result type of the parsing functions. -/
abbrev PResult (α : Type) := Except ParseFailure α

/-- diffs.rs: a DiffParseError with the given message. -/
def mkParseErr (msg : Str) : Error := { message := msg, kind := ErrorKind.DiffParseError }

/-- diffs.rs HunkLocation: start line number and length in lines. -/
structure HunkLocation where
  hunk_start : Nat
  hunk_length : Nat
deriving DecidableEq

/-- diffs.rs LineType: the type of a hunk line. -/
inductive LineType
  | Context
  | Add
  | Remove
  | EOF
deriving DecidableEq

/-- diffs.rs LineLocation: a line either really exists at a location, is a
change phantom at a location, or is meta (EOF markers). -/
inductive LineLocation
  | RealLocation (n : Nat)
  | ChangeLocation (n : Nat)
  | None
deriving DecidableEq

/-- diffs.rs HunkLine: raw line text (marker included), both locations, and
the line type. -/
structure HunkLine where
  line : Str
  source_line : LineLocation
  target_line : LineLocation
  line_type : LineType
deriving DecidableEq

/-- diffs.rs Hunk. -/
structure Hunk where
  source_location : HunkLocation
  target_location : HunkLocation
  lines : List HunkLine
deriving DecidableEq

/-- diffs.rs SourceFileHeader: path and verbatim timestamp text. -/
structure SourceFileHeader where
  path : Str
  timestamp : Str
deriving DecidableEq

/-- diffs.rs TargetFileHeader. -/
structure TargetFileHeader where
  path : Str
  timestamp : Str
deriving DecidableEq

/-- diffs.rs FileDiff; the DiffCommand newtype is modeled as the raw line. -/
structure FileDiff where
  diff_command : Str
  source_file_header : SourceFileHeader
  target_file_header : TargetFileHeader
  hunks : List Hunk
deriving DecidableEq

/-- diffs.rs VersionDiff. -/
structure VersionDiff where
  file_diffs : List FileDiff
deriving DecidableEq

/-- Whitespace as recognized by split_whitespace, restricted to the ASCII
whitespace characters that can occur inside a diff line (space, tab, CR). -/
def isWs (c : Char) : Bool := c = ' ' || c = '\t' || c = '\r'

/-- Rust str::split_whitespace: the maximal nonempty runs between whitespace. -/
def splitWs (cs : Str) : List Str := (splitOnP isWs cs).filter (fun w => w ≠ [])

/-- Rust str::starts_with for string prefixes. -/
def startsWithS : Str → Str → Bool
  | _, [] => true
  | [], _ :: _ => false
  | c :: cs, p :: ps => c = p && startsWithS cs ps

/-- Rust str::ends_with for string suffixes. -/
def endsWithS (cs suffix : Str) : Bool := startsWithS cs.reverse suffix.reverse

/-- The numeric value of a list of decimal digits. -/
def natOfDigits (cs : Str) : Nat := cs.foldl (fun n c => n * 10 + (c.toNat - 48)) 0

/-- Rust usize::from_str as used by parse::<usize>(): an optional leading plus
sign followed by one or more ASCII digits (overflow is not modeled). -/
def parseUsize (cs : Str) : Option Nat :=
  let t := if startsWithS cs (str "+") then cs.drop 1 else cs
  if t ≠ [] ∧ t.all Char.isDigit then some (natOfDigits t) else none

/-- The decimal digit characters. -/
def digitChar : Nat → Char
  | 0 => '0'
  | 1 => '1'
  | 2 => '2'
  | 3 => '3'
  | 4 => '4'
  | 5 => '5'
  | 6 => '6'
  | 7 => '7'
  | 8 => '8'
  | _ => '9'

/-- Fueled decimal rendering (fuel keeps the recursion structural). -/
def natToDecAux : Nat → Nat → Str
  | 0, _ => []
  | fuel + 1, n =>
    if n < 10 then [digitChar n]
    else natToDecAux fuel (n / 10) ++ [digitChar (n % 10)]

/-- Decimal rendering of a usize as the Display implementation prints it. -/
def natToDec (n : Nat) : Str := natToDecAux (n + 1) n

/-- diffs.rs Display for HunkLocation: the GNU diff abbreviation prints the
bare string 1 when start and length are both 1, and start,length otherwise. -/
def HunkLocation.display (l : HunkLocation) : Str :=
  if l.hunk_start = 1 ∧ l.hunk_length = 1 then str "1"
  else natToDec l.hunk_start ++ str "," ++ natToDec l.hunk_length

/-- The number-parsing loop of HunkLocation::try_from: each comma-separated
piece must parse as usize, errors propagate in order. -/
def parseNumbers (value : Str) : List Str → Except Error (List Nat)
  | [] => Except.ok []
  | p :: ps =>
    match parseUsize p with
    | some n => (parseNumbers value ps).map (fun ns => n :: ns)
    | none => Except.error (mkParseErr (str "invalid hunk location: " ++ value))

/-- diffs.rs TryFrom for HunkLocation: a sign, then start[,length] with the
length defaulting to 1; extra comma-separated numbers beyond the second are
ignored. The final fallback arm is unreachable (the split always yields at
least one piece). -/
def HunkLocation.tryFrom (value : Str) : Except Error HunkLocation :=
  match value with
  | [] => Except.error (mkParseErr (str "invalid hunk location: " ++ value))
  | c :: rest =>
    if c ≠ '-' ∧ c ≠ '+' then
      Except.error (mkParseErr (str "invalid hunk location: " ++ value))
    else
      match parseNumbers value (splitOnP (fun ch => ch = ',') rest) with
      | Except.error e => Except.error e
      | Except.ok numbers =>
        match (if numbers.length = 1 then numbers ++ [1] else numbers) with
        | n0 :: n1 :: _ => Except.ok { hunk_start := n0, hunk_length := n1 }
        | _ => Except.error (mkParseErr (str "invalid hunk location: " ++ value))

/-- diffs.rs Hunk::parse_location_line: the line must be delimited by the
at-markers; the second and third whitespace tokens are the two locations.
A missing token makes the indexing unwrap panic. -/
def parse_location_line (line : Str) : PResult (HunkLocation × HunkLocation) :=
  if ¬ (startsWithS line (str "@@ ") = true ∧ endsWithS line (str " @@") = true) then
    Except.error (ParseFailure.err (mkParseErr (str "invalid hunk location: " ++ line)))
  else
    match ((splitWs line).drop 1).take 2 with
    | [a, b] =>
      match HunkLocation.tryFrom a with
      | Except.error e => Except.error (ParseFailure.err e)
      | Except.ok la =>
        match HunkLocation.tryFrom b with
        | Except.error e => Except.error (ParseFailure.err e)
        | Except.ok lb => Except.ok (la, lb)
    | [a] =>
      match HunkLocation.tryFrom a with
      | Except.error e => Except.error (ParseFailure.err e)
      | Except.ok _ => Except.error ParseFailure.panicked
    | _ => Except.error ParseFailure.panicked

/-- diffs.rs LineType::determine_type: the EOF literal, else the first
character decides; anything else is a DiffParseError. -/
def LineType.determine_type (line : Str) : Except Error LineType :=
  if line = str "\\ No newline at end of file" then Except.ok LineType.EOF
  else
    match line with
    | [] => Except.error (mkParseErr (str "invalid hunk line: " ++ line))
    | marker :: _ =>
      if marker = '+' then Except.ok LineType.Add
      else if marker = '-' then Except.ok LineType.Remove
      else if marker = ' ' then Except.ok LineType.Context
      else Except.error (mkParseErr (str "invalid hunk line: " ++ line))

/-- The body loop of TryFrom for Hunk: running counters source_id and
target_id assign the line locations depending on the line type. -/
def hunk_lines_loop (source_id target_id : Nat) : List Str → Except Error (List HunkLine)
  | [] => Except.ok []
  | line :: rest =>
    match LineType.determine_type line with
    | Except.error e => Except.error e
    | Except.ok lt =>
      match lt with
      | LineType.Context =>
        (hunk_lines_loop (source_id + 1) (target_id + 1) rest).map (fun ls =>
          { line := line, source_line := LineLocation.RealLocation source_id
            target_line := LineLocation.RealLocation target_id
            line_type := LineType.Context } :: ls)
      | LineType.Add =>
        (hunk_lines_loop source_id (target_id + 1) rest).map (fun ls =>
          { line := line, source_line := LineLocation.ChangeLocation source_id
            target_line := LineLocation.RealLocation target_id
            line_type := LineType.Add } :: ls)
      | LineType.Remove =>
        (hunk_lines_loop (source_id + 1) target_id rest).map (fun ls =>
          { line := line, source_line := LineLocation.RealLocation source_id
            target_line := LineLocation.ChangeLocation target_id
            line_type := LineType.Remove } :: ls)
      | LineType.EOF =>
        (hunk_lines_loop source_id target_id rest).map (fun ls =>
          { line := line, source_line := LineLocation.None
            target_line := LineLocation.None
            line_type := LineType.EOF } :: ls)

/-- diffs.rs TryFrom for Hunk: the first line is the location line (a missing
line or a failed location parse hits an unwrap, i.e. panics), the remaining
lines form the body. -/
def Hunk.tryFrom : List Str → PResult Hunk
  | [] => Except.error ParseFailure.panicked
  | loc :: body =>
    match parse_location_line loc with
    | Except.error _ => Except.error ParseFailure.panicked
    | Except.ok (sl, tl) =>
      match hunk_lines_loop sl.hunk_start tl.hunk_start body with
      | Except.error e => Except.error (ParseFailure.err e)
      | Except.ok hls =>
        Except.ok { source_location := sl, target_location := tl, lines := hls }

/-- diffs.rs split_file_metainfo: the second whitespace token is the path, the
remaining tokens joined by single spaces are the timestamp; a missing path
token makes the indexing panic. -/
def split_file_metainfo (input : Str) : PResult (Str × Str) :=
  match splitWs input with
  | _ :: path :: rest => Except.ok (path, joinWith (str " ") rest)
  | _ => Except.error ParseFailure.panicked

/-- diffs.rs TryFrom for SourceFileHeader. -/
def SourceFileHeader.tryFrom (line : Str) : PResult SourceFileHeader :=
  if ¬ startsWithS line (str "--- ") then
    Except.error (ParseFailure.err
      (mkParseErr (str "invalid format: line does not start with the source marker")))
  else
    (split_file_metainfo line).map (fun pt => { path := pt.1, timestamp := pt.2 })

/-- diffs.rs TryFrom for TargetFileHeader. -/
def TargetFileHeader.tryFrom (line : Str) : PResult TargetFileHeader :=
  if ¬ startsWithS line (str "+++ ") then
    Except.error (ParseFailure.err
      (mkParseErr (str "invalid format: line does not start with the target marker")))
  else
    (split_file_metainfo line).map (fun pt => { path := pt.1, timestamp := pt.2 })

/-- The block segmentation loop shared by VersionDiff (blocks start at lines
with the diff prefix) and FileDiff (hunks start at lines with the at-marker
prefix): cur is the accumulated current block. -/
def chunksAux (p : Str → Bool) (cur : List Str) : List Str → List (List Str)
  | [] => if cur = [] then [] else [cur]
  | l :: ls =>
    if p l then
      if cur = [] then chunksAux p [l] ls else cur :: chunksAux p [l] ls
    else chunksAux p (cur ++ [l]) ls

/-- Splits lines into blocks beginning at each line satisfying p; lines before
the first such line form a leading block of their own. -/
def chunkBy (p : Str → Bool) (ls : List Str) : List (List Str) := chunksAux p [] ls

/-- The hunk-parsing loop of TryFrom for FileDiff. -/
def parseHunks : List (List Str) → PResult (List Hunk)
  | [] => Except.ok []
  | b :: bs =>
    match Hunk.tryFrom b with
    | Except.error e => Except.error e
    | Except.ok h => (parseHunks bs).map (fun hs => h :: hs)

/-- diffs.rs TryFrom for FileDiff: the diff command line, the two headers
(missing lines panic via unwrap), then the hunks split at the at-marker. -/
def FileDiff.tryFrom : List Str → PResult FileDiff
  | [] => Except.error ParseFailure.panicked
  | cmd :: rest =>
    if ¬ startsWithS cmd (str "diff ") then
      Except.error (ParseFailure.err (mkParseErr (str "invalid file diff start: " ++ cmd)))
    else
      match rest with
      | [] => Except.error ParseFailure.panicked
      | srcLine :: rest2 =>
        match SourceFileHeader.tryFrom srcLine with
        | Except.error e => Except.error e
        | Except.ok sh =>
          match rest2 with
          | [] => Except.error ParseFailure.panicked
          | tgtLine :: rest3 =>
            match TargetFileHeader.tryFrom tgtLine with
            | Except.error e => Except.error e
            | Except.ok th =>
              match parseHunks (chunkBy (fun l => startsWithS l (str "@@ ")) rest3) with
              | Except.error e => Except.error e
              | Except.ok hunks =>
                Except.ok { diff_command := cmd, source_file_header := sh
                            target_file_header := th, hunks := hunks }

/-- The file-diff-parsing loop of TryFrom for VersionDiff. -/
def parseFileDiffs : List (List Str) → PResult (List FileDiff)
  | [] => Except.ok []
  | b :: bs =>
    match FileDiff.tryFrom b with
    | Except.error e => Except.error e
    | Except.ok fd => (parseFileDiffs bs).map (fun fds => fd :: fds)

/-- diffs.rs TryFrom for VersionDiff, at the level of the line sequence
produced by content.lines(): blocks start at lines with the diff prefix; an
empty result is a DiffParseError. -/
def VersionDiff.tryFromLines (ls : List Str) : PResult VersionDiff :=
  match parseFileDiffs (chunkBy (fun l => startsWithS l (str "diff ")) ls) with
  | Except.error e => Except.error e
  | Except.ok fds =>
    if fds = [] then
      Except.error (ParseFailure.err (mkParseErr (str "the given diff is empty")))
    else Except.ok { file_diffs := fds }

/-- diffs.rs TryFrom for VersionDiff on raw content: content.lines() then the
line-level parse. -/
def VersionDiff.tryFrom (content : Str) : PResult VersionDiff :=
  VersionDiff.tryFromLines (rustLines content)

/-- diffs.rs Display for Hunk, as the list of printed lines: the location line
followed by the raw body lines. -/
def Hunk.displayLines (h : Hunk) : List Str :=
  (str "@@ -" ++ h.source_location.display ++ str " +" ++ h.target_location.display
    ++ str " @@") :: h.lines.map (fun hl => hl.line)

/-- diffs.rs Display for FileDiff, as the list of printed lines: command line,
source header, target header, then all hunk lines. -/
def FileDiff.displayLines (fd : FileDiff) : List Str :=
  fd.diff_command
    :: (str "--- " ++ fd.source_file_header.path ++ '\t' :: fd.source_file_header.timestamp)
    :: (str "+++ " ++ fd.target_file_header.path ++ '\t' :: fd.target_file_header.timestamp)
    :: (fd.hunks.map Hunk.displayLines).flatten

/-- diffs.rs Display for VersionDiff, as the list of printed lines. -/
def VersionDiff.displayLines (d : VersionDiff) : List Str :=
  (d.file_diffs.map FileDiff.displayLines).flatten

/-- diffs.rs Display for VersionDiff as text: the printed lines joined by
single newlines, with no trailing newline. -/
def VersionDiff.display (d : VersionDiff) : Str := joinWith ['\n'] d.displayLines

/- String lemmas for the parser round trip. -/

theorem startsWithS_nil_right (cs : Str) : startsWithS cs [] = true := by
  cases cs <;> rfl

theorem startsWithS_append (pre rest : Str) : startsWithS (pre ++ rest) pre = true := by
  induction pre with
  | nil => exact startsWithS_nil_right rest
  | cons c cs ih => simp [startsWithS, ih]

theorem endsWithS_append (rest suf : Str) : endsWithS (rest ++ suf) suf = true := by
  unfold endsWithS
  rw [List.reverse_append]
  exact startsWithS_append suf.reverse rest.reverse

theorem startsWithS_cons_ne {c p : Char} (cs ps : Str) (h : c ≠ p) :
    startsWithS (c :: cs) (p :: ps) = false := by
  simp [startsWithS, h]

theorem splitOnP_all_not (p : Char → Bool) (w : Str) (h : ∀ c ∈ w, p c = false) :
    splitOnP p w = [w] := by
  induction w with
  | nil => rfl
  | cons c cs ih =>
    simp only [splitOnP, h c (List.mem_cons_self c cs), Bool.false_eq_true, if_false]
    rw [ih (fun d hd => h d (List.mem_cons_of_mem c hd))]

theorem splitOnP_word_sep (p : Char → Bool) (w : Str) (hw : ∀ c ∈ w, p c = false)
    {c : Char} (hc : p c = true) (r : Str) :
    splitOnP p (w ++ c :: r) = w :: splitOnP p r := by
  induction w with
  | nil => simp [splitOnP, hc]
  | cons x xs ih =>
    have hx : p x = false := hw x (List.mem_cons_self x xs)
    show splitOnP p (x :: (xs ++ c :: r)) = (x :: xs) :: splitOnP p r
    simp only [splitOnP, hx, Bool.false_eq_true, if_false]
    rw [ih (fun d hd => hw d (List.mem_cons_of_mem x hd))]

theorem not_p_of_mem_splitOnP (p : Char → Bool) {c : Char} {part : Str} {cs : Str}
    (hpart : part ∈ splitOnP p cs) (hc : c ∈ part) : p c = false := by
  induction cs generalizing part with
  | nil =>
    simp [splitOnP] at hpart
    subst hpart
    simp at hc
  | cons x cs ih =>
    simp only [splitOnP] at hpart
    split at hpart
    · rcases List.mem_cons.1 hpart with h | h
      · subst h; simp at hc
      · exact ih h hc
    · rename_i hx
      cases hsp : splitOnP p cs with
      | nil => exact absurd hsp (splitOnP_ne_nil p cs)
      | cons w ws =>
        rw [hsp] at hpart
        rcases List.mem_cons.1 hpart with h | h
        · subst h
          rcases List.mem_cons.1 hc with h' | h'
          · subst h'
            simpa using hx
          · exact ih (by rw [hsp]; exact List.mem_cons_self w ws) h'
        · exact ih (by rw [hsp]; exact List.mem_cons_of_mem w h) hc

/-- Tokens of splitWs are nonempty and whitespace free. -/
theorem splitWs_token {w : Str} {cs : Str} (h : w ∈ splitWs cs) :
    w ≠ [] ∧ ∀ c ∈ w, isWs c = false := by
  unfold splitWs at h
  rcases List.mem_filter.1 h with ⟨hmem, hne⟩
  refine ⟨by simpa using hne, fun c hc => not_p_of_mem_splitOnP isWs hmem hc⟩

theorem splitWs_joinWith (toks : List Str)
    (h : ∀ w ∈ toks, w ≠ [] ∧ ∀ c ∈ w, isWs c = false) :
    splitWs (joinWith (str " ") toks) = toks := by
  induction toks with
  | nil => rfl
  | cons w ws ih =>
    rcases h w (List.mem_cons_self w ws) with ⟨hne, hfree⟩
    cases ws with
    | nil =>
      show splitWs w = [w]
      unfold splitWs
      rw [splitOnP_all_not isWs w hfree]
      rw [List.filter_cons, if_pos (by exact decide_eq_true hne)]
      rfl
    | cons w' ws' =>
      have hjoin : joinWith (str " ") (w :: w' :: ws')
          = w ++ ' ' :: joinWith (str " ") (w' :: ws') := by
        show w ++ str " " ++ joinWith (str " ") (w' :: ws')
            = w ++ ' ' :: joinWith (str " ") (w' :: ws')
        rw [show str " " = [' '] from by decide, List.append_assoc]
        rfl
      rw [hjoin]
      unfold splitWs
      rw [splitOnP_word_sep isWs w hfree (by decide) _]
      rw [List.filter_cons, if_pos (by exact decide_eq_true hne)]
      have hih := ih (fun v hv => h v (List.mem_cons_of_mem w hv))
      unfold splitWs at hih
      rw [hih]

/- Digit and decimal-rendering lemmas. -/

theorem digitChar_isDigit (d : Nat) (h : d < 10) : (digitChar d).isDigit = true := by
  interval_cases d <;> decide

theorem digitChar_toNat (d : Nat) (h : d < 10) : (digitChar d).toNat = 48 + d := by
  interval_cases d <;> decide

theorem isDigit_not_ws {c : Char} (h : c.isDigit = true) : isWs c = false := by
  unfold isWs
  by_cases h1 : c = ' '
  · subst h1; exact absurd h (by decide)
  · by_cases h2 : c = '\t'
    · subst h2; exact absurd h (by decide)
    · by_cases h3 : c = '\r'
      · subst h3; exact absurd h (by decide)
      · simp [h1, h2, h3]

theorem isDigit_not_comma {c : Char} (h : c.isDigit = true) : (decide (c = ',')) = false := by
  by_cases hc : c = ','
  · subst hc; exact absurd h (by decide)
  · simp [hc]

theorem natToDecAux_spec (fuel : Nat) : ∀ n, n < fuel →
    (natToDecAux fuel n ≠ [] ∧ ∀ c ∈ natToDecAux fuel n, c.isDigit = true)
    ∧ natOfDigits (natToDecAux fuel n) = n := by
  induction fuel with
  | zero => intro n h; omega
  | succ f ih =>
    intro n h
    by_cases h10 : n < 10
    · simp only [natToDecAux, h10, if_true]
      refine ⟨⟨by simp, ?_⟩, ?_⟩
      · intro c hc
        simp at hc
        subst hc
        exact digitChar_isDigit n h10
      · show natOfDigits [digitChar n] = n
        unfold natOfDigits
        show 0 * 10 + ((digitChar n).toNat - 48) = n
        rw [digitChar_toNat n h10]
        omega
    · have hrec : n / 10 < f := by
        have := Nat.div_lt_self (by omega : 0 < n) (by omega : 1 < 10)
        omega
      obtain ⟨⟨hne, hdig⟩, hval⟩ := ih (n / 10) hrec
      simp only [natToDecAux, h10, if_false]
      have hmod : n % 10 < 10 := Nat.mod_lt n (by omega)
      refine ⟨⟨by simp, ?_⟩, ?_⟩
      · intro c hc
        rcases List.mem_append.1 hc with hc | hc
        · exact hdig c hc
        · simp at hc
          subst hc
          exact digitChar_isDigit (n % 10) hmod
      · unfold natOfDigits
        rw [List.foldl_append]
        show natOfDigits (natToDecAux f (n / 10)) * 10 + ((digitChar (n % 10)).toNat - 48) = n
        rw [hval, digitChar_toNat (n % 10) hmod]
        omega

theorem natToDec_spec (n : Nat) :
    natToDec n ≠ [] ∧ (∀ c ∈ natToDec n, c.isDigit = true) ∧ natOfDigits (natToDec n) = n := by
  obtain ⟨⟨h1, h2⟩, h3⟩ := natToDecAux_spec (n + 1) n (by omega)
  exact ⟨h1, h2, h3⟩

theorem parseUsize_natToDec (n : Nat) : parseUsize (natToDec n) = some n := by
  obtain ⟨hne, hdig, hval⟩ := natToDec_spec n
  unfold parseUsize
  have hplus : startsWithS (natToDec n) (str "+") = false := by
    cases hd : natToDec n with
    | nil => exact absurd hd hne
    | cons c cs =>
      have hc : c.isDigit = true := hdig c (by rw [hd]; exact List.mem_cons_self c cs)
      have hcp : c ≠ '+' := by
        intro he
        subst he
        exact absurd hc (by decide)
      rw [show str "+" = ['+'] from by decide]
      exact startsWithS_cons_ne cs [] hcp
  rw [hplus]
  simp only [Bool.false_eq_true, if_false]
  rw [if_pos ⟨hne, by rw [List.all_eq_true]; exact fun c hc => hdig c hc⟩]
  rw [hval]

/- HunkLocation display/parse round trip. -/

theorem comma_split_display (s l : Nat) :
    splitOnP (fun ch => ch = ',') (natToDec s ++ ',' :: natToDec l)
      = [natToDec s, natToDec l] := by
  obtain ⟨hne_s, hdig_s, _⟩ := natToDec_spec s
  obtain ⟨hne_l, hdig_l, _⟩ := natToDec_spec l
  rw [splitOnP_word_sep _ _ (fun c hc => isDigit_not_comma (hdig_s c hc)) (by simp) _]
  rw [splitOnP_all_not _ _ (fun c hc => isDigit_not_comma (hdig_l c hc))]

theorem parseNumbers_display (v : Str) (s l : Nat) :
    parseNumbers v [natToDec s, natToDec l] = Except.ok [s, l] := by
  simp only [parseNumbers, parseUsize_natToDec]
  rfl

instance {ε α : Type} [DecidableEq ε] [DecidableEq α] : DecidableEq (Except ε α) := fun x y =>
  match x, y with
  | Except.ok a, Except.ok b =>
    if h : a = b then Decidable.isTrue (by rw [h])
    else Decidable.isFalse (fun he => h (Except.ok.inj he))
  | Except.error e, Except.error f =>
    if h : e = f then Decidable.isTrue (by rw [h])
    else Decidable.isFalse (fun he => h (Except.error.inj he))
  | Except.ok _, Except.error _ => Decidable.isFalse (fun he => Except.noConfusion he)
  | Except.error _, Except.ok _ => Decidable.isFalse (fun he => Except.noConfusion he)

theorem hunkLocation_tryFrom_display (sign : Char) (hs : sign = '-' ∨ sign = '+')
    (s l : Nat) :
    HunkLocation.tryFrom (sign :: HunkLocation.display { hunk_start := s, hunk_length := l })
      = Except.ok { hunk_start := s, hunk_length := l } := by
  by_cases h11 : s = 1 ∧ l = 1
  · obtain ⟨h1, h2⟩ := h11
    subst h1
    subst h2
    rcases hs with h | h <;> (subst h; decide)
  · have hd : HunkLocation.display { hunk_start := s, hunk_length := l }
        = natToDec s ++ ',' :: natToDec l := by
      unfold HunkLocation.display
      rw [if_neg h11]
      rw [show str "," = [','] from by decide, List.append_assoc]
      rfl
    rw [hd]
    have hsgn : ¬ (sign ≠ '-' ∧ sign ≠ '+') := by
      rcases hs with h | h <;> simp [h]
    simp only [HunkLocation.tryFrom]
    rw [if_neg hsgn]
    rw [comma_split_display, parseNumbers_display]
    have hlen : ([s, l].length = 1) = False := by simp
    simp only [List.length_cons, List.length_nil, hlen]
    rfl

theorem display_token (loc : HunkLocation) :
    HunkLocation.display loc ≠ [] ∧ ∀ c ∈ HunkLocation.display loc, isWs c = false := by
  unfold HunkLocation.display
  split
  · exact ⟨by decide, by decide⟩
  · obtain ⟨hne_s, hdig_s, _⟩ := natToDec_spec loc.hunk_start
    obtain ⟨hne_l, hdig_l, _⟩ := natToDec_spec loc.hunk_length
    constructor
    · intro he
      rcases List.append_eq_nil.1 he with ⟨he1, _⟩
      rcases List.append_eq_nil.1 he1 with ⟨he2, _⟩
      exact hne_s he2
    · intro c hc
      rcases List.mem_append.1 hc with hc | hc
      · rcases List.mem_append.1 hc with hc | hc
        · exact isDigit_not_ws (hdig_s c hc)
        · have : c = ',' := by simpa [show str "," = [','] from by decide] using hc
          subst this
          decide
      · exact isDigit_not_ws (hdig_l c hc)

theorem splitWs_locline (d1 d2 : Str)
    (h1 : d1 ≠ [] ∧ ∀ c ∈ d1, isWs c = false)
    (h2 : d2 ≠ [] ∧ ∀ c ∈ d2, isWs c = false) :
    splitWs (str "@@ -" ++ d1 ++ str " +" ++ d2 ++ str " @@")
      = [str "@@", '-' :: d1, '+' :: d2, str "@@"] := by
  have hshape : str "@@ -" ++ d1 ++ str " +" ++ d2 ++ str " @@"
      = str "@@" ++ ' ' :: (('-' :: d1) ++ ' ' :: (('+' :: d2) ++ ' ' :: str "@@")) := by
    simp [show str "@@ -" = ['@', '@', ' ', '-'] from by decide,
      show str " +" = [' ', '+'] from by decide,
      show str " @@" = [' ', '@', '@'] from by decide,
      show str "@@" = ['@', '@'] from by decide, List.append_assoc]
  unfold splitWs
  rw [hshape]
  rw [splitOnP_word_sep isWs (str "@@") (by decide) (by decide) _]
  rw [splitOnP_word_sep isWs ('-' :: d1)
    (by
      intro c hc
      rcases List.mem_cons.1 hc with hc | hc
      · subst hc; decide
      · exact h1.2 c hc) (by decide) _]
  rw [splitOnP_word_sep isWs ('+' :: d2)
    (by
      intro c hc
      rcases List.mem_cons.1 hc with hc | hc
      · subst hc; decide
      · exact h2.2 c hc) (by decide) _]
  rw [splitOnP_all_not isWs (str "@@") (by decide)]
  simp [show str "@@" = ['@', '@'] from by decide, h1.1, h2.1]

theorem parse_location_line_display (sl tl : HunkLocation) :
    parse_location_line
      (str "@@ -" ++ sl.display ++ str " +" ++ tl.display ++ str " @@")
      = Except.ok (sl, tl) := by
  have hstart : startsWithS
      (str "@@ -" ++ sl.display ++ str " +" ++ tl.display ++ str " @@") (str "@@ ") = true := by
    have hshape : str "@@ -" ++ sl.display ++ str " +" ++ tl.display ++ str " @@"
        = str "@@ " ++ ('-' :: (sl.display ++ str " +" ++ tl.display ++ str " @@")) := by
      simp [show str "@@ -" = ['@', '@', ' ', '-'] from by decide,
        show str "@@ " = ['@', '@', ' '] from by decide, List.append_assoc]
    rw [hshape]
    exact startsWithS_append _ _
  have hend : endsWithS
      (str "@@ -" ++ sl.display ++ str " +" ++ tl.display ++ str " @@") (str " @@") = true :=
    endsWithS_append _ _
  unfold parse_location_line
  rw [if_neg (by
    intro hcon
    exact hcon ⟨hstart, hend⟩)]
  rw [splitWs_locline sl.display tl.display (display_token sl) (display_token tl)]
  show
    (match HunkLocation.tryFrom ('-' :: sl.display) with
      | Except.error e => Except.error (ParseFailure.err e)
      | Except.ok la =>
        match HunkLocation.tryFrom ('+' :: tl.display) with
        | Except.error e => Except.error (ParseFailure.err e)
        | Except.ok lb => (Except.ok (la, lb) : PResult (HunkLocation × HunkLocation)))
      = Except.ok (sl, tl)
  obtain ⟨s1, l1⟩ := sl
  obtain ⟨s2, l2⟩ := tl
  rw [hunkLocation_tryFrom_display '-' (Or.inl rfl) s1 l1]
  rw [hunkLocation_tryFrom_display '+' (Or.inr rfl) s2 l2]

/- Hunk body lemmas. -/

theorem except_map_eq_ok {ε α β : Type} (f : α → β) (x : Except ε α) (b : β)
    (h : x.map f = Except.ok b) : ∃ a, x = Except.ok a ∧ f a = b := by
  cases x with
  | error e => simp [Except.map] at h
  | ok a =>
    refine ⟨a, rfl, ?_⟩
    simpa [Except.map] using h

/-- The counter invariant of the spec, written as a function of the line
types: Context assigns Real/Real and advances both counters, Add assigns
Change/Real and advances only the target counter, Remove assigns Real/Change
and advances only the source counter, EOF assigns None/None. -/
def locationSpec (src tgt : Nat) : List LineType → List (LineLocation × LineLocation)
  | [] => []
  | LineType.Context :: ts =>
    (LineLocation.RealLocation src, LineLocation.RealLocation tgt)
      :: locationSpec (src + 1) (tgt + 1) ts
  | LineType.Add :: ts =>
    (LineLocation.ChangeLocation src, LineLocation.RealLocation tgt)
      :: locationSpec src (tgt + 1) ts
  | LineType.Remove :: ts =>
    (LineLocation.RealLocation src, LineLocation.ChangeLocation tgt)
      :: locationSpec (src + 1) tgt ts
  | LineType.EOF :: ts =>
    (LineLocation.None, LineLocation.None) :: locationSpec src tgt ts

theorem hunk_lines_loop_lines (body : List Str) :
    ∀ (s t : Nat) (hls : List HunkLine),
      hunk_lines_loop s t body = Except.ok hls → body = hls.map (fun hl => hl.line) := by
  induction body with
  | nil =>
    intro s t hls h
    simp only [hunk_lines_loop] at h
    rw [← Except.ok.inj h]
    rfl
  | cons line rest ih =>
    intro s t hls h
    unfold hunk_lines_loop at h
    cases hdt : LineType.determine_type line with
    | error e => rw [hdt] at h; exact absurd h (by simp)
    | ok lt =>
      rw [hdt] at h
      cases lt <;>
        (obtain ⟨ls, hrec, hmap⟩ := except_map_eq_ok _ _ _ h
         have hrest := ih _ _ ls hrec
         rw [← hmap, List.map_cons, ← hrest])

theorem hunk_lines_loop_types (body : List Str) :
    ∀ (s t : Nat) (hls : List HunkLine), hunk_lines_loop s t body = Except.ok hls →
      ∀ hl ∈ hls, LineType.determine_type hl.line = Except.ok hl.line_type := by
  induction body with
  | nil =>
    intro s t hls h hl hmem
    simp only [hunk_lines_loop] at h
    rw [← Except.ok.inj h] at hmem
    simp at hmem
  | cons line rest ih =>
    intro s t hls h hl hmem
    unfold hunk_lines_loop at h
    cases hdt : LineType.determine_type line with
    | error e => rw [hdt] at h; exact absurd h (by simp)
    | ok lt =>
      rw [hdt] at h
      cases lt <;>
        (obtain ⟨ls, hrec, hmap⟩ := except_map_eq_ok _ _ _ h
         rw [← hmap] at hmem
         rcases List.mem_cons.1 hmem with hm | hm
         · subst hm; exact hdt
         · exact ih _ _ ls hrec hl hm)

theorem hunk_lines_loop_spec (body : List Str) :
    ∀ (s t : Nat) (hls : List HunkLine), hunk_lines_loop s t body = Except.ok hls →
      hls.map (fun hl => (hl.source_line, hl.target_line))
        = locationSpec s t (hls.map (fun hl => hl.line_type)) := by
  induction body with
  | nil =>
    intro s t hls h
    simp only [hunk_lines_loop] at h
    rw [← Except.ok.inj h]
    rfl
  | cons line rest ih =>
    intro s t hls h
    unfold hunk_lines_loop at h
    cases hdt : LineType.determine_type line with
    | error e => rw [hdt] at h; exact absurd h (by simp)
    | ok lt =>
      rw [hdt] at h
      cases lt <;>
        (obtain ⟨ls, hrec, hmap⟩ := except_map_eq_ok _ _ _ h
         rw [← hmap, List.map_cons, List.map_cons]
         rw [ih _ _ ls hrec]
         rfl)

/-- The well-formedness of a parsed Hunk: its stored body lines re-assign to
exactly its stored hunk lines under the counter loop. -/
def wfHunk (h : Hunk) : Prop :=
  hunk_lines_loop h.source_location.hunk_start h.target_location.hunk_start
    (h.lines.map (fun hl => hl.line)) = Except.ok h.lines

theorem hunk_tryFrom_ok_wf {lines : List Str} {h : Hunk}
    (hp : Hunk.tryFrom lines = Except.ok h) : wfHunk h := by
  cases lines with
  | nil => exact absurd hp (by simp [Hunk.tryFrom])
  | cons loc body =>
    simp only [Hunk.tryFrom] at hp
    split at hp
    · exact absurd hp (by simp)
    next sl tl heq =>
      split at hp
      · exact absurd hp (by simp)
      next hls heq2 =>
        unfold wfHunk
        rw [← Except.ok.inj hp]
        show hunk_lines_loop sl.hunk_start tl.hunk_start
          (hls.map (fun hl => hl.line)) = Except.ok hls
        rw [← hunk_lines_loop_lines body sl.hunk_start tl.hunk_start hls heq2]
        exact heq2

theorem hunk_tryFrom_display {h : Hunk} (hwf : wfHunk h) :
    Hunk.tryFrom h.displayLines = Except.ok h := by
  unfold Hunk.displayLines
  simp only [Hunk.tryFrom]
  rw [parse_location_line_display h.source_location h.target_location]
  show (match hunk_lines_loop h.source_location.hunk_start h.target_location.hunk_start
        (List.map (fun hl => hl.line) h.lines) with
      | Except.error e => Except.error (ParseFailure.err e)
      | Except.ok hls =>
        (Except.ok { source_location := h.source_location
                     target_location := h.target_location
                     lines := hls } : PResult Hunk)) = Except.ok h
  rw [hwf]

/- File header lemmas. -/

theorem splitWs_header (w path ts : Str)
    (hw : ∀ c ∈ w, isWs c = false) (hwne : w ≠ [])
    (hp : path ≠ []) (hpw : ∀ c ∈ path, isWs c = false) :
    splitWs (w ++ ' ' :: (path ++ '\t' :: ts)) = w :: path :: splitWs ts := by
  unfold splitWs
  rw [splitOnP_word_sep isWs w hw (by decide) _]
  rw [splitOnP_word_sep isWs path hpw (by decide) _]
  rw [List.filter_cons, if_pos (decide_eq_true hwne)]
  rw [List.filter_cons, if_pos (decide_eq_true hp)]

theorem split_file_metainfo_display (w path ts : Str)
    (hw : ∀ c ∈ w, isWs c = false) (hwne : w ≠ [])
    (hp : path ≠ []) (hpw : ∀ c ∈ path, isWs c = false)
    (hts : joinWith (str " ") (splitWs ts) = ts) :
    split_file_metainfo (w ++ ' ' :: (path ++ '\t' :: ts)) = Except.ok (path, ts) := by
  unfold split_file_metainfo
  rw [splitWs_header w path ts hw hwne hp hpw]
  show Except.ok (path, joinWith (str " ") (splitWs ts)) = Except.ok (path, ts)
  rw [hts]

theorem sourceHeader_tryFrom_display (path ts : Str)
    (hp : path ≠ []) (hpw : ∀ c ∈ path, isWs c = false)
    (hts : joinWith (str " ") (splitWs ts) = ts) :
    SourceFileHeader.tryFrom (str "--- " ++ path ++ '\t' :: ts)
      = Except.ok { path := path, timestamp := ts } := by
  have hassoc : str "--- " ++ path ++ '\t' :: ts = str "--- " ++ (path ++ '\t' :: ts) := by
    rw [List.append_assoc]
  have hstart : startsWithS (str "--- " ++ path ++ '\t' :: ts) (str "--- ") = true := by
    rw [hassoc]
    exact startsWithS_append _ _
  have hshape : str "--- " ++ path ++ '\t' :: ts = str "---" ++ ' ' :: (path ++ '\t' :: ts) := by
    simp [show str "--- " = ['-', '-', '-', ' '] from by decide,
      show str "---" = ['-', '-', '-'] from by decide, List.append_assoc]
  unfold SourceFileHeader.tryFrom
  rw [if_neg (by exact fun hcon => hcon hstart)]
  rw [hshape]
  rw [split_file_metainfo_display (str "---") path ts (by decide) (by decide) hp hpw hts]
  rfl

theorem targetHeader_tryFrom_display (path ts : Str)
    (hp : path ≠ []) (hpw : ∀ c ∈ path, isWs c = false)
    (hts : joinWith (str " ") (splitWs ts) = ts) :
    TargetFileHeader.tryFrom (str "+++ " ++ path ++ '\t' :: ts)
      = Except.ok { path := path, timestamp := ts } := by
  have hassoc : str "+++ " ++ path ++ '\t' :: ts = str "+++ " ++ (path ++ '\t' :: ts) := by
    rw [List.append_assoc]
  have hstart : startsWithS (str "+++ " ++ path ++ '\t' :: ts) (str "+++ ") = true := by
    rw [hassoc]
    exact startsWithS_append _ _
  have hshape : str "+++ " ++ path ++ '\t' :: ts = str "+++" ++ ' ' :: (path ++ '\t' :: ts) := by
    simp [show str "+++ " = ['+', '+', '+', ' '] from by decide,
      show str "+++" = ['+', '+', '+'] from by decide, List.append_assoc]
  unfold TargetFileHeader.tryFrom
  rw [if_neg (by exact fun hcon => hcon hstart)]
  rw [hshape]
  rw [split_file_metainfo_display (str "+++") path ts (by decide) (by decide) hp hpw hts]
  rfl

theorem split_file_metainfo_wf {line path ts : Str}
    (h : split_file_metainfo line = Except.ok (path, ts)) :
    (path ≠ [] ∧ ∀ c ∈ path, isWs c = false) ∧ joinWith (str " ") (splitWs ts) = ts := by
  unfold split_file_metainfo at h
  split at h
  · rename_i a path' rest heq
    have hinj := Except.ok.inj h
    have hpath : path' = path := congrArg Prod.fst hinj
    have hts : joinWith (str " ") rest = ts := congrArg Prod.snd hinj
    subst hpath
    constructor
    · exact splitWs_token (by rw [heq]; exact List.mem_cons_of_mem a (List.mem_cons_self path' rest))
    · have hws : splitWs (joinWith (str " ") rest) = rest := by
        apply splitWs_joinWith
        intro v hv
        exact splitWs_token (by
          rw [heq]
          exact List.mem_cons_of_mem a (List.mem_cons_of_mem path' hv))
      rw [hts] at hws
      rw [hws, hts]
  · exact absurd h (by simp)

/- Block segmentation lemmas. -/

theorem chunksAux_append_nonstarters (p : Str → Bool) (tl : List Str)
    (h : ∀ x ∈ tl, p x = false) :
    ∀ (cur rest : List Str), chunksAux p cur (tl ++ rest) = chunksAux p (cur ++ tl) rest := by
  induction tl with
  | nil => intro cur rest; simp
  | cons x xs ih =>
    intro cur rest
    show chunksAux p cur (x :: (xs ++ rest)) = _
    simp only [chunksAux, h x (List.mem_cons_self x xs), Bool.false_eq_true, if_false]
    rw [ih (fun y hy => h y (List.mem_cons_of_mem x hy)) (cur ++ [x]) rest]
    simp [List.append_assoc]

/-- A well-formed block for a segmentation predicate: nonempty, its head is a
boundary line and no other line of it is. -/
def wfBlock (p : Str → Bool) (b : List Str) : Prop :=
  ∃ hd tlb, b = hd :: tlb ∧ p hd = true ∧ ∀ x ∈ tlb, p x = false

theorem chunksAux_flatten (p : Str → Bool) (bs : List (List Str))
    (hb : ∀ b ∈ bs, wfBlock p b) :
    ∀ cur, cur ≠ [] → chunksAux p cur bs.flatten = cur :: bs := by
  induction bs with
  | nil => intro cur hc; simp [chunksAux, hc]
  | cons b bs ih =>
    intro cur hc
    obtain ⟨hd, tlb, hb1, hphd, htl⟩ := hb b (List.mem_cons_self b bs)
    rw [hb1, List.flatten_cons]
    show chunksAux p cur (hd :: (tlb ++ bs.flatten)) = cur :: (hd :: tlb) :: bs
    simp only [chunksAux, hphd, if_true, hc, if_false]
    rw [chunksAux_append_nonstarters p tlb htl [hd] bs.flatten]
    simp only [List.singleton_append]
    rw [ih (fun b' hb' => hb b' (List.mem_cons_of_mem b hb')) (hd :: tlb) (by simp)]

theorem chunkBy_flatten (p : Str → Bool) (bs : List (List Str))
    (hb : ∀ b ∈ bs, wfBlock p b) :
    chunkBy p bs.flatten = bs := by
  cases bs with
  | nil => rfl
  | cons b bs' =>
    obtain ⟨hd, tlb, hb1, hphd, htl⟩ := hb b (List.mem_cons_self b bs')
    unfold chunkBy
    rw [hb1, List.flatten_cons]
    show chunksAux p [] (hd :: (tlb ++ bs'.flatten)) = (hd :: tlb) :: bs'
    simp only [chunksAux, hphd, if_true]
    rw [chunksAux_append_nonstarters p tlb htl [hd] bs'.flatten]
    simp only [List.singleton_append]
    exact chunksAux_flatten p bs' (fun b' hb' => hb b' (List.mem_cons_of_mem b hb'))
      (hd :: tlb) (by simp)

/- Rendered lines and segmentation boundaries. -/

theorem determine_type_not_boundary {l : Str} {t : LineType}
    (h : LineType.determine_type l = Except.ok t) :
    startsWithS l (str "@@ ") = false ∧ startsWithS l (str "diff ") = false := by
  unfold LineType.determine_type at h
  split at h
  · rename_i heq
    rw [heq]
    exact ⟨by decide, by decide⟩
  · split at h
    · exact absurd h (by simp)
    · rename_i marker tail heq
      by_cases h1 : marker = '+'
      · subst h1
        refine ⟨?_, ?_⟩
        · rw [show str "@@ " = '@' :: ['@', ' '] from by decide]
          exact startsWithS_cons_ne _ _ (by decide)
        · rw [show str "diff " = 'd' :: ['i', 'f', 'f', ' '] from by decide]
          exact startsWithS_cons_ne _ _ (by decide)
      · rw [if_neg h1] at h
        by_cases h2 : marker = '-'
        · subst h2
          refine ⟨?_, ?_⟩
          · rw [show str "@@ " = '@' :: ['@', ' '] from by decide]
            exact startsWithS_cons_ne _ _ (by decide)
          · rw [show str "diff " = 'd' :: ['i', 'f', 'f', ' '] from by decide]
            exact startsWithS_cons_ne _ _ (by decide)
        · rw [if_neg h2] at h
          by_cases h3 : marker = ' '
          · subst h3
            refine ⟨?_, ?_⟩
            · rw [show str "@@ " = '@' :: ['@', ' '] from by decide]
              exact startsWithS_cons_ne _ _ (by decide)
            · rw [show str "diff " = 'd' :: ['i', 'f', 'f', ' '] from by decide]
              exact startsWithS_cons_ne _ _ (by decide)
          · rw [if_neg h3] at h
            exact absurd h (by simp)

theorem locline_startsWith (d1 d2 : Str) :
    startsWithS (str "@@ -" ++ d1 ++ str " +" ++ d2 ++ str " @@") (str "@@ ") = true := by
  have hshape : str "@@ -" ++ d1 ++ str " +" ++ d2 ++ str " @@"
      = str "@@ " ++ ('-' :: (d1 ++ str " +" ++ d2 ++ str " @@")) := by
    simp [show str "@@ -" = ['@', '@', ' ', '-'] from by decide,
      show str "@@ " = ['@', '@', ' '] from by decide, List.append_assoc]
  rw [hshape]
  exact startsWithS_append _ _

theorem locline_not_diff (d1 d2 : Str) :
    startsWithS (str "@@ -" ++ d1 ++ str " +" ++ d2 ++ str " @@") (str "diff ") = false := by
  have hshape : str "@@ -" ++ d1 ++ str " +" ++ d2 ++ str " @@"
      = '@' :: ('@' :: ' ' :: '-' :: (d1 ++ str " +" ++ d2 ++ str " @@")) := by
    simp [show str "@@ -" = ['@', '@', ' ', '-'] from by decide, List.append_assoc]
  rw [hshape, show str "diff " = 'd' :: ['i', 'f', 'f', ' '] from by decide]
  exact startsWithS_cons_ne _ _ (by decide)

/-- A well-formed hunk renders as a single well-formed at-marker block. -/
theorem hunk_display_wfBlock {h : Hunk} (hwf : wfHunk h) :
    wfBlock (fun l => startsWithS l (str "@@ ")) h.displayLines := by
  refine ⟨_, _, rfl, locline_startsWith _ _, ?_⟩
  intro x hx
  rcases List.mem_map.1 hx with ⟨hl, hmem, hxeq⟩
  subst hxeq
  exact (determine_type_not_boundary
    (hunk_lines_loop_types _ _ _ _ hwf hl hmem)).1

/- FileDiff-level round trip. -/

/-- The well-formedness invariants established by a successful FileDiff
parse: command-line prefix, nonempty whitespace-free paths, normalized
timestamps, and well-formed hunks. -/
def wfFileDiff (fd : FileDiff) : Prop :=
  startsWithS fd.diff_command (str "diff ") = true
  ∧ (fd.source_file_header.path ≠ [] ∧ ∀ c ∈ fd.source_file_header.path, isWs c = false)
  ∧ joinWith (str " ") (splitWs fd.source_file_header.timestamp)
      = fd.source_file_header.timestamp
  ∧ (fd.target_file_header.path ≠ [] ∧ ∀ c ∈ fd.target_file_header.path, isWs c = false)
  ∧ joinWith (str " ") (splitWs fd.target_file_header.timestamp)
      = fd.target_file_header.timestamp
  ∧ ∀ h ∈ fd.hunks, wfHunk h

/-- The well-formedness invariants established by a successful VersionDiff
parse. -/
def wfVersionDiff (d : VersionDiff) : Prop :=
  d.file_diffs ≠ [] ∧ ∀ fd ∈ d.file_diffs, wfFileDiff fd

theorem parseHunks_display (hs : List Hunk) (hwf : ∀ h ∈ hs, wfHunk h) :
    parseHunks (hs.map Hunk.displayLines) = Except.ok hs := by
  induction hs with
  | nil => rfl
  | cons h hs ih =>
    simp only [List.map_cons, parseHunks]
    rw [hunk_tryFrom_display (hwf h (List.mem_cons_self h hs))]
    rw [ih (fun h' hh => hwf h' (List.mem_cons_of_mem h hh))]
    rfl

theorem fileDiff_tryFrom_display {fd : FileDiff} (hwf : wfFileDiff fd) :
    FileDiff.tryFrom fd.displayLines = Except.ok fd := by
  obtain ⟨hcmd, hsp, hsts, htp, htts, hhunks⟩ := hwf
  unfold FileDiff.displayLines
  simp only [FileDiff.tryFrom]
  rw [if_neg (fun hcon => hcon hcmd)]
  show (match SourceFileHeader.tryFrom
        (str "--- " ++ fd.source_file_header.path ++ '\t' :: fd.source_file_header.timestamp)
      with
    | Except.error e => Except.error e
    | Except.ok sh =>
      match TargetFileHeader.tryFrom
          (str "+++ " ++ fd.target_file_header.path ++ '\t' :: fd.target_file_header.timestamp)
        with
      | Except.error e => Except.error e
      | Except.ok th =>
        match parseHunks (chunkBy (fun l => startsWithS l (str "@@ "))
            (fd.hunks.map Hunk.displayLines).flatten) with
        | Except.error e => Except.error e
        | Except.ok hunks =>
          (Except.ok { diff_command := fd.diff_command, source_file_header := sh
                       target_file_header := th, hunks := hunks } : PResult FileDiff))
    = Except.ok fd
  rw [sourceHeader_tryFrom_display _ _ hsp.1 hsp.2 hsts]
  show (match TargetFileHeader.tryFrom
        (str "+++ " ++ fd.target_file_header.path ++ '\t' :: fd.target_file_header.timestamp)
      with
    | Except.error e => Except.error e
    | Except.ok th =>
      match parseHunks (chunkBy (fun l => startsWithS l (str "@@ "))
          (fd.hunks.map Hunk.displayLines).flatten) with
      | Except.error e => Except.error e
      | Except.ok hunks =>
        (Except.ok { diff_command := fd.diff_command
                     source_file_header := { path := fd.source_file_header.path
                                             timestamp := fd.source_file_header.timestamp }
                     target_file_header := th, hunks := hunks } : PResult FileDiff))
    = Except.ok fd
  rw [targetHeader_tryFrom_display _ _ htp.1 htp.2 htts]
  show (match parseHunks (chunkBy (fun l => startsWithS l (str "@@ "))
        (fd.hunks.map Hunk.displayLines).flatten) with
    | Except.error e => Except.error e
    | Except.ok hunks =>
      (Except.ok { diff_command := fd.diff_command
                   source_file_header := { path := fd.source_file_header.path
                                           timestamp := fd.source_file_header.timestamp }
                   target_file_header := { path := fd.target_file_header.path
                                           timestamp := fd.target_file_header.timestamp }
                   hunks := hunks } : PResult FileDiff))
    = Except.ok fd
  rw [chunkBy_flatten _ _ (by
    intro b hb
    rcases List.mem_map.1 hb with ⟨h, hm, hbe⟩
    subst hbe
    exact hunk_display_wfBlock (hhunks h hm))]
  rw [parseHunks_display fd.hunks hhunks]

theorem fileDiff_display_wfBlock {fd : FileDiff} (hwf : wfFileDiff fd) :
    wfBlock (fun l => startsWithS l (str "diff ")) fd.displayLines := by
  obtain ⟨hcmd, hsp, hsts, htp, htts, hhunks⟩ := hwf
  refine ⟨_, _, rfl, hcmd, ?_⟩
  intro x hx
  rcases List.mem_cons.1 hx with hx | hx
  · subst hx
    have hshape : str "--- " ++ fd.source_file_header.path ++ '\t'
          :: fd.source_file_header.timestamp
        = '-' :: ('-' :: '-' :: ' '
          :: (fd.source_file_header.path ++ '\t' :: fd.source_file_header.timestamp)) := by
      simp [show str "--- " = ['-', '-', '-', ' '] from by decide, List.append_assoc]
    rw [hshape, show str "diff " = 'd' :: ['i', 'f', 'f', ' '] from by decide]
    exact startsWithS_cons_ne _ _ (by decide)
  rcases List.mem_cons.1 hx with hx | hx
  · subst hx
    have hshape : str "+++ " ++ fd.target_file_header.path ++ '\t'
          :: fd.target_file_header.timestamp
        = '+' :: ('+' :: '+' :: ' '
          :: (fd.target_file_header.path ++ '\t' :: fd.target_file_header.timestamp)) := by
      simp [show str "+++ " = ['+', '+', '+', ' '] from by decide, List.append_assoc]
    rw [hshape, show str "diff " = 'd' :: ['i', 'f', 'f', ' '] from by decide]
    exact startsWithS_cons_ne _ _ (by decide)
  · rcases List.mem_flatten.1 hx with ⟨b, hb, hxb⟩
    rcases List.mem_map.1 hb with ⟨h, hm, hbe⟩
    subst hbe
    rcases List.mem_cons.1 hxb with hxb | hxb
    · subst hxb
      exact locline_not_diff _ _
    · rcases List.mem_map.1 hxb with ⟨hl, hlm, hxe⟩
      subst hxe
      exact (determine_type_not_boundary
        (hunk_lines_loop_types _ _ _ _ (hhunks h hm) hl hlm)).2

theorem parseFileDiffs_display (fds : List FileDiff) (hwf : ∀ fd ∈ fds, wfFileDiff fd) :
    parseFileDiffs (fds.map FileDiff.displayLines) = Except.ok fds := by
  induction fds with
  | nil => rfl
  | cons fd fds ih =>
    simp only [List.map_cons, parseFileDiffs]
    rw [fileDiff_tryFrom_display (hwf fd (List.mem_cons_self fd fds))]
    rw [ih (fun fd' hm => hwf fd' (List.mem_cons_of_mem fd hm))]
    rfl

theorem versionDiff_tryFromLines_display {d : VersionDiff} (hwf : wfVersionDiff d) :
    VersionDiff.tryFromLines d.displayLines = Except.ok d := by
  obtain ⟨hne, hfds⟩ := hwf
  unfold VersionDiff.displayLines VersionDiff.tryFromLines
  rw [chunkBy_flatten _ _ (by
    intro b hb
    rcases List.mem_map.1 hb with ⟨fd, hm, hbe⟩
    subst hbe
    exact fileDiff_display_wfBlock (hfds fd hm))]
  rw [parseFileDiffs_display d.file_diffs hfds]
  show (if d.file_diffs = [] then
      (Except.error (ParseFailure.err (mkParseErr (str "the given diff is empty")))
        : PResult VersionDiff)
    else Except.ok { file_diffs := d.file_diffs }) = Except.ok d
  rw [if_neg hne]

/- Parse success establishes the well-formedness invariants. -/

theorem sourceHeader_tryFrom_ok_wf {line : Str} {sh : SourceFileHeader}
    (h : SourceFileHeader.tryFrom line = Except.ok sh) :
    (sh.path ≠ [] ∧ ∀ c ∈ sh.path, isWs c = false)
    ∧ joinWith (str " ") (splitWs sh.timestamp) = sh.timestamp := by
  unfold SourceFileHeader.tryFrom at h
  split at h
  · exact absurd h (by simp)
  · obtain ⟨pt, hmeta, heq⟩ := except_map_eq_ok _ _ _ h
    obtain ⟨p, t⟩ := pt
    rw [← heq]
    exact split_file_metainfo_wf hmeta

theorem targetHeader_tryFrom_ok_wf {line : Str} {th : TargetFileHeader}
    (h : TargetFileHeader.tryFrom line = Except.ok th) :
    (th.path ≠ [] ∧ ∀ c ∈ th.path, isWs c = false)
    ∧ joinWith (str " ") (splitWs th.timestamp) = th.timestamp := by
  unfold TargetFileHeader.tryFrom at h
  split at h
  · exact absurd h (by simp)
  · obtain ⟨pt, hmeta, heq⟩ := except_map_eq_ok _ _ _ h
    obtain ⟨p, t⟩ := pt
    rw [← heq]
    exact split_file_metainfo_wf hmeta

theorem parseHunks_ok_wf {bs : List (List Str)} {hs : List Hunk}
    (h : parseHunks bs = Except.ok hs) : ∀ hk ∈ hs, wfHunk hk := by
  induction bs generalizing hs with
  | nil =>
    simp only [parseHunks] at h
    rw [← Except.ok.inj h]
    simp
  | cons b bs ih =>
    unfold parseHunks at h
    split at h
    · exact absurd h (by simp)
    · rename_i hk1 heq1
      obtain ⟨tl, hrec, hmap⟩ := except_map_eq_ok _ _ _ h
      intro hk hm
      rw [← hmap] at hm
      rcases List.mem_cons.1 hm with hm | hm
      · subst hm
        exact hunk_tryFrom_ok_wf heq1
      · exact ih hrec hk hm

theorem fileDiff_tryFrom_ok_wf {lines : List Str} {fd : FileDiff}
    (h : FileDiff.tryFrom lines = Except.ok fd) : wfFileDiff fd := by
  cases lines with
  | nil => exact absurd h (by simp [FileDiff.tryFrom])
  | cons cmd rest =>
    simp only [FileDiff.tryFrom] at h
    split at h
    · exact absurd h (by simp)
    · rename_i hcond
      have hcmd : startsWithS cmd (str "diff ") = true := not_not.1 hcond
      split at h
      · exact absurd h (by simp)
      · rename_i srcLine rest2 heqr
        split at h
        · exact absurd h (by simp)
        · rename_i sh heq1
          split at h
          · exact absurd h (by simp)
          · rename_i tgtLine rest3 heqr2
            split at h
            · exact absurd h (by simp)
            · rename_i th heq2
              split at h
              · exact absurd h (by simp)
              · rename_i hunks heq3
                have hfd := Except.ok.inj h
                rw [← hfd]
                obtain ⟨hsh1, hsh2⟩ := sourceHeader_tryFrom_ok_wf heq1
                obtain ⟨hth1, hth2⟩ := targetHeader_tryFrom_ok_wf heq2
                exact ⟨hcmd, hsh1, hsh2, hth1, hth2, parseHunks_ok_wf heq3⟩

theorem parseFileDiffs_ok_wf {bs : List (List Str)} {fds : List FileDiff}
    (h : parseFileDiffs bs = Except.ok fds) : ∀ fd ∈ fds, wfFileDiff fd := by
  induction bs generalizing fds with
  | nil =>
    simp only [parseFileDiffs] at h
    rw [← Except.ok.inj h]
    simp
  | cons b bs ih =>
    unfold parseFileDiffs at h
    split at h
    · exact absurd h (by simp)
    · rename_i fd1 heq1
      obtain ⟨tl, hrec, hmap⟩ := except_map_eq_ok _ _ _ h
      intro fd hm
      rw [← hmap] at hm
      rcases List.mem_cons.1 hm with hm | hm
      · subst hm
        exact fileDiff_tryFrom_ok_wf heq1
      · exact ih hrec fd hm

theorem versionDiff_tryFromLines_ok_wf {ls : List Str} {d : VersionDiff}
    (h : VersionDiff.tryFromLines ls = Except.ok d) : wfVersionDiff d := by
  unfold VersionDiff.tryFromLines at h
  split at h
  · exact absurd h (by simp)
  · rename_i fds heq
    split at h
    · exact absurd h (by simp)
    · rename_i hne
      rw [← Except.ok.inj h]
      exact ⟨hne, parseFileDiffs_ok_wf heq⟩

/- Claims C8 and C9. -/

/-- Equality of texts up to the presence or absence of a single trailing
newline. -/
def eqUpToTrailingNl (a b : Str) : Prop := a = b ∨ a = b ++ ['\n'] ∨ b = a ++ ['\n']

instance (a b : Str) : Decidable (eqUpToTrailingNl a b) := by
  unfold eqUpToTrailingNl
  infer_instance

/-- A valid diff text whose hunk location is written in the non-abbreviated
form 1,1. -/
def diffTextC8 : Str := str "diff a b\n--- a\tT\n+++ b\tT\n@@ -1,1 +1,1 @@\n x"

/-- Claim C8 (counterexample): the diff text diffTextC8 parses successfully,
but rendering the model back abbreviates the hunk location line from
1,1-form to the bare 1-form, so the result differs from the input by more
than a trailing newline. -/
theorem c8_roundtrip_counterexample :
    ((VersionDiff.tryFrom diffTextC8).toOption.map VersionDiff.display)
      = some (str "diff a b\n--- a\tT\n+++ b\tT\n@@ -1 +1 @@\n x")
    ∧ ¬ eqUpToTrailingNl (str "diff a b\n--- a\tT\n+++ b\tT\n@@ -1 +1 @@\n x") diffTextC8 := by
  constructor
  · decide
  · decide

/-- Claim C8 (amended): parse-render is a canonicalization rather than the
identity: reparsing the rendered lines of any successfully parsed VersionDiff
yields the same model (so render-parse is idempotent and the rendered text is
a canonical form of the input, equal to it only up to hunk-location
abbreviation and header-whitespace normalization); and a hunk location with
start 1 and length 1 renders as the bare string 1 while any other
combination renders as start,length. -/
theorem c8_roundtrip_amended :
    (∀ (ls : List Str) (d : VersionDiff),
      VersionDiff.tryFromLines ls = Except.ok d →
        VersionDiff.tryFromLines d.displayLines = Except.ok d)
    ∧ (∀ s l : Nat, s = 1 ∧ l = 1 →
        HunkLocation.display { hunk_start := s, hunk_length := l } = str "1")
    ∧ (∀ s l : Nat, ¬ (s = 1 ∧ l = 1) →
        HunkLocation.display { hunk_start := s, hunk_length := l }
          = natToDec s ++ str "," ++ natToDec l) := by
  refine ⟨?_, ?_, ?_⟩
  · intro ls d h
    exact versionDiff_tryFromLines_display (versionDiff_tryFromLines_ok_wf h)
  · intro s l h
    unfold HunkLocation.display
    rw [if_pos h]
  · intro s l h
    unfold HunkLocation.display
    rw [if_neg h]

/-- The model of diffTextC8. -/
def diffC8 : VersionDiff :=
  { file_diffs :=
      [ { diff_command := str "diff a b"
          source_file_header := { path := str "a", timestamp := str "T" }
          target_file_header := { path := str "b", timestamp := str "T" }
          hunks :=
            [ { source_location := { hunk_start := 1, hunk_length := 1 }
                target_location := { hunk_start := 1, hunk_length := 1 }
                lines :=
                  [ { line := str " x"
                      source_line := LineLocation.RealLocation 1
                      target_line := LineLocation.RealLocation 1
                      line_type := LineType.Context } ] } ] } ] }

/-- Witness for c8_roundtrip_amended at the concrete model diffC8. -/
theorem c8_roundtrip_amended_witness :
    VersionDiff.tryFromLines (VersionDiff.displayLines diffC8) = Except.ok diffC8
    ∧ HunkLocation.display { hunk_start := 1, hunk_length := 1 } = str "1"
    ∧ HunkLocation.display { hunk_start := 2, hunk_length := 3 }
        = natToDec 2 ++ str "," ++ natToDec 3 :=
  ⟨c8_roundtrip_amended.1 (rustLines diffTextC8) diffC8 (by decide),
   c8_roundtrip_amended.2.1 1 1 ⟨rfl, rfl⟩,
   c8_roundtrip_amended.2.2 2 3 (by decide)⟩

/-- Claim C9: the line locations a successful hunk parse assigns to the body
lines satisfy the counter invariant locationSpec: starting the counters at
the declared source and target starts, Context lines are Real/Real advancing
both, Add lines are Change/Real advancing only the target, Remove lines are
Real/Change advancing only the source, EOF markers are None/None advancing
neither. -/
theorem c9_line_location_invariant (lines : List Str) (h : Hunk)
    (hp : Hunk.tryFrom lines = Except.ok h) :
    h.lines.map (fun hl => (hl.source_line, hl.target_line))
      = locationSpec h.source_location.hunk_start h.target_location.hunk_start
          (h.lines.map (fun hl => hl.line_type)) :=
  hunk_lines_loop_spec _ _ _ _ (hunk_tryFrom_ok_wf hp)

/-- The model of the hunk used to witness c9_line_location_invariant. -/
def hunkC9 : Hunk :=
  { source_location := { hunk_start := 4, hunk_length := 2 }
    target_location := { hunk_start := 10, hunk_length := 2 }
    lines :=
      [ { line := str " c"
          source_line := LineLocation.RealLocation 4
          target_line := LineLocation.RealLocation 10
          line_type := LineType.Context }
      , { line := str "-r"
          source_line := LineLocation.RealLocation 5
          target_line := LineLocation.ChangeLocation 11
          line_type := LineType.Remove }
      , { line := str "+a"
          source_line := LineLocation.ChangeLocation 6
          target_line := LineLocation.RealLocation 11
          line_type := LineType.Add } ] }

/-- Witness for c9_line_location_invariant at a concrete parsed hunk. -/
theorem c9_line_location_invariant_witness :
    hunkC9.lines.map (fun hl => (hl.source_line, hl.target_line))
      = locationSpec 4 10 (hunkC9.lines.map (fun hl => hl.line_type)) :=
  c9_line_location_invariant
    [str "@@ -4,2 +10,2 @@", str " c", str "-r", str "+a"] hunkC9 (by decide)
